import Mathlib

/-!
Verification of the ssh-key-mgr core against its natural-language
specification.  The TypeScript sources are shallowly embedded: JS strings
become lists of characters, the async IO layer becomes explicit parameters
(directory listings, success predicates of delegated tools), and each
claim of the specification is settled as a theorem about the embedded
definitions.
-/

namespace SSHKeyMgr

/-- JavaScript strings are modelled as lists of characters. -/
abbrev JSStr := List Char

/-- Whitespace for the purposes of JS trim and of the whitespace regex
class (ASCII subset; unicode space classes are not modelled). -/
def isJsSpace (c : Char) : Bool :=
  c == ' ' || c == '\t' || c == '\n' || c == '\r' || c == '\x0b' || c == '\x0c'

/-- Left trim, as in String.prototype.trim. -/
def trimLeft (s : JSStr) : JSStr := s.dropWhile isJsSpace

/-- Right trim, as in String.prototype.trim. -/
def trimRight (s : JSStr) : JSStr := (s.reverse.dropWhile isJsSpace).reverse

/-- Model of String.prototype.trim. -/
def jsTrim (s : JSStr) : JSStr := trimLeft (trimRight s)

/-- Model of content.split with separator newline: "a\nb" gives ["a", "b"],
the empty string gives [""], a trailing newline yields a trailing "". -/
def splitOnNl : JSStr → List JSStr
  | [] => [[]]
  | c :: rest =>
    if c = '\n' then [] :: splitOnNl rest
    else
      match splitOnNl rest with
      | [] => [[c]]
      | l :: ls => (c :: l) :: ls

/-- Worker for jsSplitWs.  The second argument is the token being read, in
reverse (none means a separator run was just flushed, so that a run of
several whitespace characters produces a single split). -/
def splitWsAux : JSStr → Option JSStr → List JSStr
  | [], none => [[]]
  | [], some cur => [cur.reverse]
  | c :: rest, none =>
    if isJsSpace c then splitWsAux rest none else splitWsAux rest (some [c])
  | c :: rest, some cur =>
    if isJsSpace c then cur.reverse :: splitWsAux rest none
    else splitWsAux rest (some (c :: cur))

/-- Model of s.split on runs of whitespace, as used for directive lines:
"a  b" gives ["a", "b"], leading or trailing whitespace contributes an
empty part, the empty string gives [""]. -/
def jsSplitWs (s : JSStr) : List JSStr := splitWsAux s (some [])

/-- Model of Array.prototype.join with a single-space separator. -/
def joinSpaces : List JSStr → JSStr
  | [] => []
  | [v] => v
  | v :: vs => v ++ ' ' :: joinSpaces vs

/-- ASCII lowercasing of a string, as String.prototype.toLowerCase on the
identifiers appearing here. -/
def strLower (s : JSStr) : JSStr := s.map Char.toLower

/-- Case-insensitive prefix test; the pattern p is given in lowercase. -/
def startsWithCI (p s : JSStr) : Bool := strLower (s.take p.length) == p

/-- Model of matching the anchored case-insensitive regex
Host-whitespace-capture against a trimmed line (lines produced by
splitOnNl never contain a newline).  Returns the captured group. -/
def matchHostDirective (t : JSStr) : Option JSStr :=
  let rest := t.drop 4
  if startsWithCI ("host".toList) t
      && rest.head?.any isJsSpace
      && !(rest.dropWhile isJsSpace).isEmpty then
    some (rest.dropWhile isJsSpace)
  else
    none

/-- Model of value.replace with the anchored-tilde regex and the home
directory as replacement. -/
def expandTilde (home : JSStr) (v : JSStr) : JSStr :=
  match v with
  | c :: rest => if c = '~' then home ++ rest else c :: rest
  | [] => []

/-- Prefix test used to model String.prototype.includes. -/
def listStartsWith : JSStr → JSStr → Bool
  | _, [] => true
  | [], _ :: _ => false
  | c :: s, d :: t => c == d && listStartsWith s t

/-- Model of s.includes(sub): some contiguous run of s equals sub. -/
def strIncludes : JSStr → JSStr → Bool
  | [], sub => listStartsWith [] sub
  | c :: rest, sub => listStartsWith (c :: rest) sub || strIncludes rest sub

/-- Numeric value of a decimal digit character. -/
def digitVal (c : Char) : Nat := c.toNat - 48

/-- Decimal digit test. -/
def isDigitChar (c : Char) : Bool := 48 ≤ c.toNat && c.toNat ≤ 57

/-- Value of a digit string, most significant digit first. -/
def foldDigits (s : JSStr) : Nat := s.foldl (fun a c => a * 10 + digitVal c) 0

/-- Digits-prefix part of parseInt with radix 10: the longest leading run
of decimal digits, none when there is no digit. -/
def parseDigitsPrefix (s : JSStr) : Option Nat :=
  let ds := s.takeWhile isDigitChar
  if ds.isEmpty then none else some (foldDigits ds)

/-- Model of parseInt(value, 10).  The NaN result is modelled as none:
NaN and undefined are interchangeable for this code base, whose only use
of the port number is a truthiness test, and NaN and undefined are both
falsy. -/
def jsParseInt (s : JSStr) : Option Int :=
  match s.dropWhile isJsSpace with
  | [] => none
  | c :: rest =>
    if c = '-' then (parseDigitsPrefix rest).map (fun n => -(Int.ofNat n))
    else if c = '+' then (parseDigitsPrefix rest).map Int.ofNat
    else (parseDigitsPrefix (c :: rest)).map Int.ofNat

/-- Fuel-driven decimal rendering worker; the fuel n + 1 always suffices
for the number n. -/
def natToStrAux : Nat → Nat → JSStr → JSStr
  | 0, _, acc => acc
  | fuel + 1, n, acc =>
    if n < 10 then Nat.digitChar n :: acc
    else natToStrAux fuel (n / 10) (Nat.digitChar (n % 10) :: acc)

/-- Decimal rendering of a natural number, as JS number-to-string. -/
def natToStr (n : Nat) : JSStr := natToStrAux (n + 1) n []

/-- Decimal rendering of an integer, as JS template interpolation of an
integral number. -/
def intToStr (i : Int) : JSStr :=
  if i < 0 then '-' :: natToStr i.natAbs else natToStr i.natAbs

/-- The SSHConfig interface of shared/types.ts.  additionalOptions is the
insertion-ordered JS object of unrecognized directives. -/
structure SSHConfig where
  host : JSStr
  hostname : JSStr
  port : Option Int := none
  user : Option JSStr := none
  identityFile : Option JSStr := none
  preferredAuthentications : Option JSStr := none
  additionalOptions : List (JSStr × JSStr) := []
  deriving DecidableEq, Repr

/-- Assignment to a JS object key: overwrites in place when the key is
present, otherwise appends, preserving first-seen key order. -/
def setAdditionalOption : List (JSStr × JSStr) → JSStr → JSStr → List (JSStr × JSStr)
  | [], k, v => [(k, v)]
  | (k', v') :: rest, k, v =>
    if k' = k then (k, v) :: rest else (k', v') :: setAdditionalOption rest k v

/-- One iteration of the directive switch in parseSSHConfig for a
non-Host, non-comment trimmed line inside an open Host block. -/
def applyDirective (home : JSStr) (c : SSHConfig) (t : JSStr) : SSHConfig :=
  match jsSplitWs t with
  | [] => c
  | key :: valueParts =>
    if strLower key = ("hostname".toList) then
      { c with hostname := joinSpaces valueParts }
    else if strLower key = ("port".toList) then
      { c with port := jsParseInt (joinSpaces valueParts) }
    else if strLower key = ("user".toList) then
      { c with user := some (joinSpaces valueParts) }
    else if strLower key = ("identityfile".toList) then
      { c with identityFile := some (expandTilde home (joinSpaces valueParts)) }
    else if strLower key = ("preferredauthentications".toList) then
      { c with preferredAuthentications := some (joinSpaces valueParts) }
    else
      { c with additionalOptions :=
          setAdditionalOption c.additionalOptions key (joinSpaces valueParts) }

/-- Commit of the entry in progress: pushed only when both alias and
hostname are non-empty (string truthiness in the source). -/
def commitOf : Option SSHConfig → List SSHConfig
  | none => []
  | some c => if c.host ≠ [] ∧ c.hostname ≠ [] then [c] else []

/-- The line loop of parseSSHConfig.  home is the replacement used for the
home-directory shorthand (process.env.HOME, else USERPROFILE, else
empty). -/
def parseConfigLines (home : JSStr) : List JSStr → Option SSHConfig → List SSHConfig
  | [], cur => commitOf cur
  | l :: ls, cur =>
    if jsTrim l = [] ∨ (jsTrim l).head? = some '#' then parseConfigLines home ls cur
    else
      match matchHostDirective (jsTrim l) with
      | some cap =>
        commitOf cur ++ parseConfigLines home ls (some { host := jsTrim cap, hostname := [] })
      | none =>
        match cur with
        | none => parseConfigLines home ls none
        | some c => parseConfigLines home ls (some (applyDirective home c (jsTrim l)))

/-- parseSSHConfig applied to given file content (the file-existence check
and the IO wrapper sit outside the model). -/
def parseSSHConfig (home : JSStr) (content : JSStr) : List SSHConfig :=
  parseConfigLines home (splitOnNl content) none

/-- The Port line of a written block: JS truthiness drops an undefined,
zero or NaN port. -/
def portLines : Option Int → List JSStr
  | some p => if p != 0 then [("    Port ".toList) ++ intToStr p] else []
  | none => []

/-- An optional string-valued line of a written block: JS truthiness drops
an undefined or empty value. -/
def optValueLines (label : JSStr) : Option JSStr → List JSStr
  | some v => if !v.isEmpty then [label ++ v] else []
  | none => []

/-- The additional-option lines of a written block, in object insertion
order. -/
def optionLines (opts : List (JSStr × JSStr)) : List JSStr :=
  opts.map (fun kv => ("    ".toList) ++ kv.1 ++ ' ' :: kv.2)

/-- The lines written for one host block by writeSSHConfig, in order,
including the trailing blank separator line. -/
def hostBlockLines (c : SSHConfig) : List JSStr :=
  [("Host ".toList) ++ c.host, ("    HostName ".toList) ++ c.hostname]
  ++ portLines c.port
  ++ optValueLines ("    User ".toList) c.user
  ++ optValueLines ("    IdentityFile ".toList) c.identityFile
  ++ optValueLines ("    PreferredAuthentications ".toList) c.preferredAuthentications
  ++ optionLines c.additionalOptions
  ++ [[]]

/-- Concatenation of newline-terminated lines, as the incremental content
building in writeSSHConfig. -/
def linesJoin : List JSStr → JSStr
  | [] => []
  | l :: ls => l ++ '\n' :: linesJoin ls

/-- Content produced by writeSSHConfig for a list of entries: the two-line
header comment, a blank line, then one block per entry. -/
def writeSSHConfigContent (configs : List SSHConfig) : JSStr :=
  linesJoin (("# SSH Config File".toList)
    :: ("# Generated by SSH Key Manager".toList)
    :: [] :: (configs.map hostBlockLines).flatten)

/-- Serialization-safe text: non-empty, no surrounding whitespace, no
newline.  This is the shape of an alias that survives the written Host
line unchanged. -/
def wfText (v : JSStr) : Bool :=
  !v.isEmpty
  && v.head?.all (fun c => !isJsSpace c)
  && v.reverse.head?.all (fun c => !isJsSpace c)
  && decide ('\n' ∉ v)

/-- Serialization-safe directive value: additionally, internal whitespace
is exactly single spaces, so that the keyword-splitting of the parser and
the single-space join reproduce the value verbatim. -/
def wfValue (v : JSStr) : Bool :=
  wfText v && decide (joinSpaces (jsSplitWs v) = v)

/-- Directive keywords the parser recognizes (lowercased), plus the block
opener itself. -/
def recognizedKeys : List JSStr :=
  [("hostname".toList), ("port".toList), ("user".toList),
   ("identityfile".toList), ("preferredauthentications".toList), ("host".toList)]

/-- Serialization-safe additional-directive keyword: non-empty, free of
whitespace, not a comment starter, and not one of the keywords the parser
treats specially. -/
def wfKey (k : JSStr) : Bool :=
  !k.isEmpty && k.all (fun c => !isJsSpace c) && decide (k.head? ≠ some '#')
  && decide (strLower k ∉ recognizedKeys)

/-- Serialization safety of a whole entry: every field round-trips through
the written text.  Port 0 is excluded because JS truthiness drops it from
the written block; a leading tilde in identityFile is excluded because the
parser expands it. -/
def wellFormedConfig (c : SSHConfig) : Bool :=
  wfText c.host
  && wfValue c.hostname
  && (match c.port with | none => true | some p => p != 0)
  && (match c.user with | none => true | some v => wfValue v)
  && (match c.identityFile with
      | none => true
      | some v => wfValue v && decide (v.head? ≠ some '~'))
  && (match c.preferredAuthentications with | none => true | some v => wfValue v)
  && c.additionalOptions.all (fun kv => wfKey kv.1 && wfValue kv.2)
  && decide ((c.additionalOptions.map Prod.fst).Nodup)

/-! ### Elementary facts about trimming and splitting -/

lemma trimLeft_cons {c : Char} {s : JSStr} (h : isJsSpace c = false) :
    trimLeft (c :: s) = c :: s := by
  simp [trimLeft, List.dropWhile_cons, h]

lemma trimRight_eq_self {s : JSStr} (h : s.reverse.head?.all (fun c => !isJsSpace c)) :
    trimRight s = s := by
  cases hs : s.reverse with
  | nil =>
    have hnil : s = [] := by simpa using congrArg List.reverse hs
    simp [trimRight, hnil]
  | cons c t =>
    rw [hs] at h
    simp only [List.head?_cons, Option.all_some, Bool.not_eq_true'] at h
    rw [trimRight, hs, List.dropWhile_cons]
    simp only [h, Bool.false_eq_true, if_false]
    rw [← hs, List.reverse_reverse]

lemma jsTrim_eq_self {s : JSStr}
    (h1 : s.head?.all (fun c => !isJsSpace c))
    (h2 : s.reverse.head?.all (fun c => !isJsSpace c)) :
    jsTrim s = s := by
  rw [jsTrim, trimRight_eq_self h2]
  cases s with
  | nil => rfl
  | cons c t =>
    simp only [List.head?_cons, Option.all_some, Bool.not_eq_true'] at h1
    exact trimLeft_cons h1

lemma splitOnNl_append_cons {l : JSStr} (rest : JSStr) (h : '\n' ∉ l) :
    splitOnNl (l ++ '\n' :: rest) = l :: splitOnNl rest := by
  induction l with
  | nil => simp [splitOnNl]
  | cons c cs ih =>
    have hc : ¬(c = '\n') := fun hh => h (hh ▸ List.mem_cons_self c cs)
    have ihh := ih (fun hm => h (List.mem_cons_of_mem c hm))
    rw [List.cons_append, splitOnNl]
    simp only [hc, if_false, ihh]

lemma splitOnNl_linesJoin {ls : List JSStr} (h : ∀ l ∈ ls, '\n' ∉ l) :
    splitOnNl (linesJoin ls) = ls ++ [[]] := by
  induction ls with
  | nil => simp [linesJoin, splitOnNl]
  | cons l ls ih =>
    rw [linesJoin, splitOnNl_append_cons _ (h l (List.mem_cons_self l ls)),
      ih (fun x hx => h x (List.mem_cons_of_mem l hx))]
    rfl

lemma splitWsAux_append {w : JSStr} (r cur : JSStr) (h : ∀ c ∈ w, isJsSpace c = false) :
    splitWsAux (w ++ r) (some cur) = splitWsAux r (some (w.reverse ++ cur)) := by
  induction w generalizing cur with
  | nil => simp
  | cons c cs ih =>
    have hc := h c (List.mem_cons_self c cs)
    rw [List.cons_append, splitWsAux]
    simp only [hc, Bool.false_eq_true, if_false]
    rw [ih (c :: cur) (fun x hx => h x (List.mem_cons_of_mem c hx))]
    simp

lemma jsSplitWs_all_nonspace {w : JSStr} (h : ∀ c ∈ w, isJsSpace c = false) :
    jsSplitWs w = [w] := by
  have := splitWsAux_append (w := w) [] [] h
  rw [List.append_nil] at this
  rw [jsSplitWs, this, splitWsAux]
  simp

lemma splitWsAux_none_eq {v : JSStr} (h : v.head?.all (fun c => !isJsSpace c)) :
    splitWsAux v none = jsSplitWs v := by
  cases v with
  | nil => rfl
  | cons c t =>
    simp only [List.head?_cons, Option.all_some, Bool.not_eq_true'] at h
    rw [jsSplitWs, splitWsAux, splitWsAux]
    simp [h]

lemma jsSplitWs_sep {k v : JSStr} (hk : ∀ c ∈ k, isJsSpace c = false)
    (hv : v.head?.all (fun c => !isJsSpace c)) :
    jsSplitWs (k ++ ' ' :: v) = k :: jsSplitWs v := by
  rw [jsSplitWs, splitWsAux_append (' ' :: v) [] hk, splitWsAux]
  have : isJsSpace ' ' = true := by decide
  simp only [this, if_true, List.append_nil, List.reverse_reverse]
  rw [splitWsAux_none_eq hv]

/-! ### Decimal rendering is inverted by parseInt -/

lemma natToStrAux_append (fuel n : Nat) (acc : JSStr) :
    natToStrAux fuel n acc = natToStrAux fuel n [] ++ acc := by
  induction fuel generalizing n acc with
  | zero => rfl
  | succ f ih =>
    rw [natToStrAux, natToStrAux]
    by_cases h : n < 10
    · simp [h]
    · simp only [h, if_false]
      rw [ih (n / 10) (Nat.digitChar (n % 10) :: acc), ih (n / 10) [Nat.digitChar (n % 10)]]
      simp

lemma natToStrAux_fuel {fuel fuel' n : Nat} (h : n < fuel) (h' : n < fuel') (acc : JSStr) :
    natToStrAux fuel n acc = natToStrAux fuel' n acc := by
  induction fuel generalizing fuel' n acc with
  | zero => omega
  | succ f ih =>
    cases fuel' with
    | zero => omega
    | succ f' =>
      rw [natToStrAux, natToStrAux]
      by_cases h10 : n < 10
      · simp [h10]
      · simp only [h10, if_false]
        have hd : n / 10 < n := Nat.div_lt_self (by omega) (by omega)
        exact ih (by omega) (by omega) _

lemma natToStr_of_lt {n : Nat} (h : n < 10) : natToStr n = [Nat.digitChar n] := by
  rw [natToStr, natToStrAux]
  simp [h]

lemma natToStr_of_ge {n : Nat} (h : 10 ≤ n) :
    natToStr n = natToStr (n / 10) ++ [Nat.digitChar (n % 10)] := by
  rw [natToStr, natToStrAux]
  have h10 : ¬(n < 10) := by omega
  simp only [h10, if_false]
  have hd : n / 10 < n := Nat.div_lt_self (by omega) (by omega)
  rw [natToStrAux_fuel hd (Nat.lt_succ_self _), natToStrAux_append]
  rfl

lemma digit_facts : ∀ m, m < 10 →
    isDigitChar (Nat.digitChar m) = true ∧ digitVal (Nat.digitChar m) = m := by
  decide

lemma natToStr_digits (n : Nat) : ∀ c ∈ natToStr n, isDigitChar c = true := by
  induction n using Nat.strong_induction_on with
  | _ n ih =>
    by_cases h : n < 10
    · rw [natToStr_of_lt h]
      intro c hc
      rw [List.mem_singleton] at hc
      subst hc
      exact (digit_facts n h).1
    · rw [natToStr_of_ge (by omega)]
      intro c hc
      rcases List.mem_append.mp hc with h1 | h2
      · exact ih (n / 10) (Nat.div_lt_self (by omega) (by omega)) c h1
      · rw [List.mem_singleton] at h2
        subst h2
        exact (digit_facts (n % 10) (Nat.mod_lt _ (by omega))).1

lemma natToStr_ne_nil (n : Nat) : natToStr n ≠ [] := by
  by_cases h : n < 10
  · rw [natToStr_of_lt h]
    simp
  · rw [natToStr_of_ge (by omega)]
    simp

lemma foldDigits_append (s : JSStr) (c : Char) :
    foldDigits (s ++ [c]) = foldDigits s * 10 + digitVal c := by
  rw [foldDigits, foldDigits, List.foldl_append]
  rfl

lemma foldDigits_natToStr (n : Nat) : foldDigits (natToStr n) = n := by
  induction n using Nat.strong_induction_on with
  | _ n ih =>
    by_cases h : n < 10
    · rw [natToStr_of_lt h]
      have : foldDigits [Nat.digitChar n] = 0 * 10 + digitVal (Nat.digitChar n) := rfl
      rw [this, (digit_facts n h).2]
      omega
    · rw [natToStr_of_ge (by omega), foldDigits_append,
        ih (n / 10) (Nat.div_lt_self (by omega) (by omega)),
        (digit_facts (n % 10) (Nat.mod_lt _ (by omega))).2]
      omega

lemma takeWhile_eq_self {p : Char → Bool} {s : JSStr} (h : ∀ c ∈ s, p c = true) :
    s.takeWhile p = s := by
  induction s with
  | nil => rfl
  | cons c cs ih =>
    rw [List.takeWhile_cons, h c (List.mem_cons_self c cs)]
    simp [ih (fun x hx => h x (List.mem_cons_of_mem c hx))]

lemma not_space_of_toNat_ge {c : Char} (h : 48 ≤ c.toNat) : isJsSpace c = false := by
  simp only [isJsSpace, Bool.or_eq_false_iff]
  refine ⟨⟨⟨⟨⟨?_, ?_⟩, ?_⟩, ?_⟩, ?_⟩, ?_⟩ <;>
    · rw [beq_eq_false_iff_ne]
      rintro rfl
      exact absurd h (by decide)

lemma digit_not_space {c : Char} (h : isDigitChar c = true) : isJsSpace c = false := by
  simp only [isDigitChar, Bool.and_eq_true, decide_eq_true_eq] at h
  exact not_space_of_toNat_ge h.1

lemma digit_ne_dash {c : Char} (h : isDigitChar c = true) : c ≠ '-' := by
  simp only [isDigitChar, Bool.and_eq_true, decide_eq_true_eq] at h
  rintro rfl
  exact absurd h.1 (by decide)

lemma digit_ne_plus {c : Char} (h : isDigitChar c = true) : c ≠ '+' := by
  simp only [isDigitChar, Bool.and_eq_true, decide_eq_true_eq] at h
  rintro rfl
  exact absurd h.1 (by decide)

lemma parseDigitsPrefix_natToStr (n : Nat) : parseDigitsPrefix (natToStr n) = some n := by
  rw [parseDigitsPrefix]
  have ht : (natToStr n).takeWhile isDigitChar = natToStr n :=
    takeWhile_eq_self (natToStr_digits n)
  simp only [ht]
  rw [if_neg (by simpa using natToStr_ne_nil n)]
  rw [foldDigits_natToStr]

lemma intToStr_all_nonspace (i : Int) : ∀ c ∈ intToStr i, isJsSpace c = false := by
  rw [intToStr]
  by_cases h : i < 0
  · simp only [h, if_true]
    intro c hc
    rcases List.mem_cons.mp hc with h1 | h2
    · subst h1
      decide
    · exact digit_not_space (natToStr_digits _ c h2)
  · simp only [h, if_false]
    intro c hc
    exact digit_not_space (natToStr_digits _ c hc)

lemma intToStr_ne_nil (i : Int) : intToStr i ≠ [] := by
  rw [intToStr]
  by_cases h : i < 0
  · simp [h]
  · simp only [h, if_false]
    exact natToStr_ne_nil _

lemma jsParseInt_natToStr (m : Nat) : jsParseInt (natToStr m) = some (m : Int) := by
  obtain ⟨c, cs, hcc⟩ : ∃ c cs, natToStr m = c :: cs := by
    cases hm : natToStr m with
    | nil => exact absurd hm (natToStr_ne_nil m)
    | cons c cs => exact ⟨c, cs, rfl⟩
  have hdig : isDigitChar c = true := natToStr_digits m c (hcc ▸ List.mem_cons_self c cs)
  rw [jsParseInt, hcc, List.dropWhile_cons]
  simp only [digit_not_space hdig, Bool.false_eq_true, if_false]
  rw [if_neg (digit_ne_dash hdig), if_neg (digit_ne_plus hdig), ← hcc,
    parseDigitsPrefix_natToStr]
  rfl

lemma jsParseInt_intToStr (i : Int) : jsParseInt (intToStr i) = some i := by
  rw [intToStr]
  by_cases h : i < 0
  · simp only [h, if_true]
    rw [jsParseInt, List.dropWhile_cons]
    have hws : isJsSpace '-' = false := by decide
    simp only [hws, Bool.false_eq_true, if_false]
    rw [if_pos trivial, parseDigitsPrefix_natToStr]
    show some (-Int.ofNat i.natAbs) = some i
    simp only [Option.some.injEq, Int.ofNat_eq_coe]
    omega
  · simp only [h, if_false]
    rw [jsParseInt_natToStr]
    simp only [Option.some.injEq]
    omega

/-! ### Stepping lemmas for the parser loop -/

lemma parseConfigLines_nil (home : JSStr) (cur : Option SSHConfig) :
    parseConfigLines home [] cur = commitOf cur := rfl

lemma parseConfigLines_skip {l : JSStr} (home : JSStr) (ls : List JSStr)
    (cur : Option SSHConfig) (h : jsTrim l = [] ∨ (jsTrim l).head? = some '#') :
    parseConfigLines home (l :: ls) cur = parseConfigLines home ls cur := by
  simp only [parseConfigLines]
  rw [if_pos h]

lemma parseConfigLines_host {l cap : JSStr} (home : JSStr) (ls : List JSStr)
    (cur : Option SSHConfig)
    (hskip : ¬(jsTrim l = [] ∨ (jsTrim l).head? = some '#'))
    (hmatch : matchHostDirective (jsTrim l) = some cap) :
    parseConfigLines home (l :: ls) cur
      = commitOf cur ++ parseConfigLines home ls (some { host := jsTrim cap, hostname := [] }) := by
  simp only [parseConfigLines]
  rw [if_neg hskip, hmatch]

lemma parseConfigLines_directive {l : JSStr} (home : JSStr) (ls : List JSStr)
    (c : SSHConfig)
    (hskip : ¬(jsTrim l = [] ∨ (jsTrim l).head? = some '#'))
    (hmatch : matchHostDirective (jsTrim l) = none) :
    parseConfigLines home (l :: ls) (some c)
      = parseConfigLines home ls (some (applyDirective home c (jsTrim l))) := by
  simp only [parseConfigLines]
  rw [if_neg hskip, hmatch]

/-! ### Shape lemmas for the written lines -/

lemma reverse_head_append {x v : JSStr} (hvne : v ≠ []) :
    (x ++ v).reverse.head?.all (fun c => !isJsSpace c)
      = v.reverse.head?.all (fun c => !isJsSpace c) := by
  rw [List.reverse_append]
  cases hv : v.reverse with
  | nil => exact absurd (by simpa using congrArg List.reverse hv) hvne
  | cons c t => simp

lemma directive_line_trim {k v : JSStr} (hk1 : k ≠ [])
    (hk2 : ∀ c ∈ k, isJsSpace c = false)
    (hv : v.reverse.head?.all (fun c => !isJsSpace c)) (hvne : v ≠ []) :
    jsTrim (("    ".toList) ++ k ++ ' ' :: v) = k ++ ' ' :: v := by
  obtain ⟨a, k', rfl⟩ : ∃ a k', k = a :: k' := by
    cases k with
    | nil => exact absurd rfl hk1
    | cons a k' => exact ⟨a, k', rfl⟩
  have hassoc : ("    ".toList) ++ (a :: k') ++ ' ' :: v
      = (("    ".toList) ++ (a :: k') ++ [' ']) ++ v := by simp
  have hr : (("    ".toList) ++ (a :: k') ++ ' ' :: v).reverse.head?.all
      (fun c => !isJsSpace c) := by
    rw [hassoc, reverse_head_append hvne]
    exact hv
  rw [jsTrim, trimRight_eq_self hr]
  show trimLeft (' ' :: ' ' :: ' ' :: ' ' :: a :: (k' ++ ' ' :: v)) = a :: (k' ++ ' ' :: v)
  have hsp : isJsSpace ' ' = true := by decide
  have ha : isJsSpace a = false := hk2 a (List.mem_cons_self a k')
  simp [trimLeft, List.dropWhile_cons, hsp, ha]

lemma host_line_trim {h : JSStr} (hne : h ≠ [])
    (hlast : h.reverse.head?.all (fun c => !isJsSpace c)) :
    jsTrim (("Host ".toList) ++ h) = ("Host ".toList) ++ h := by
  have hr : (("Host ".toList) ++ h).reverse.head?.all (fun c => !isJsSpace c) := by
    rw [reverse_head_append hne]
    exact hlast
  rw [jsTrim, trimRight_eq_self hr]
  show trimLeft ('H' :: 'o' :: 's' :: 't' :: ' ' :: h) = 'H' :: 'o' :: 's' :: 't' :: ' ' :: h
  exact trimLeft_cons (by decide)

lemma matchHostDirective_hostline {h : JSStr} (hne : h ≠ [])
    (hhead : h.head?.all (fun c => !isJsSpace c)) :
    matchHostDirective (("Host ".toList) ++ h) = some h := by
  obtain ⟨a, t, rfl⟩ : ∃ a t, h = a :: t := by
    cases h with
    | nil => exact absurd rfl hne
    | cons a t => exact ⟨a, t, rfl⟩
  simp only [List.head?_cons, Option.all_some, Bool.not_eq_true'] at hhead
  rw [matchHostDirective]
  have h1 : startsWithCI ("host".toList) (("Host ".toList) ++ a :: t) = true := rfl
  have h2 : (("Host ".toList) ++ a :: t).drop 4 = ' ' :: a :: t := rfl
  have hsp : isJsSpace ' ' = true := by decide
  simp only [h1, h2, List.head?_cons, Option.any_some, hsp, Bool.and_true, Bool.true_and,
    List.dropWhile_cons, hhead]
  simp [hsp]

lemma matchHostDirective_keyline {k v : JSStr} (hk1 : k ≠ [])
    (hk2 : ∀ c ∈ k, isJsSpace c = false)
    (hk3 : strLower k ≠ ("host".toList)) :
    matchHostDirective (k ++ ' ' :: v) = none := by
  rw [matchHostDirective]
  rw [if_neg]
  intro hcond
  simp only [Bool.and_eq_true] at hcond
  obtain ⟨⟨h1, h2⟩, h3⟩ := hcond
  have hlen : ("host".toList).length = 4 := rfl
  rw [startsWithCI, hlen] at h1
  match k, hk1 with
  | [a], _ =>
    simp only [List.cons_append, List.nil_append] at h1
    have ht : List.take 4 (a :: ' ' :: v) = a :: ' ' :: List.take 2 v := by
      simp [List.take_succ_cons]
    rw [strLower, ht] at h1
    have h1' := beq_iff_eq.mp h1
    rw [List.map_cons, List.map_cons] at h1'
    injection h1' with e1 h1''
    injection h1'' with e2 h1'''
    exact absurd e2 (by decide)
  | [a, b], _ =>
    simp only [List.cons_append, List.nil_append] at h1
    have ht : List.take 4 (a :: b :: ' ' :: v) = a :: b :: ' ' :: List.take 1 v := by
      simp [List.take_succ_cons]
    rw [strLower, ht] at h1
    have h1' := beq_iff_eq.mp h1
    rw [List.map_cons, List.map_cons, List.map_cons] at h1'
    injection h1' with e1 h1''
    injection h1'' with e2 h1'''
    injection h1''' with e3 h1''''
    exact absurd e3 (by decide)
  | [a, b, c], _ =>
    simp only [List.cons_append, List.nil_append] at h1
    have ht : List.take 4 (a :: b :: c :: ' ' :: v) = [a, b, c, ' '] := by
      simp [List.take_succ_cons]
    rw [strLower, ht] at h1
    have h1' := beq_iff_eq.mp h1
    rw [List.map_cons, List.map_cons, List.map_cons, List.map_cons] at h1'
    injection h1' with e1 h1''
    injection h1'' with e2 h1'''
    injection h1''' with e3 h1''''
    injection h1'''' with e4 h5'
    exact absurd e4 (by decide)
  | a :: b :: c :: d :: k4, _ =>
    cases k4 with
    | nil =>
      apply hk3
      have h4 : List.take 4 ([a, b, c, d] ++ ' ' :: v) = [a, b, c, d] := rfl
      rw [h4] at h1
      exact beq_iff_eq.mp h1
    | cons e k5 =>
      have h5 : ((a :: b :: c :: d :: e :: k5) ++ ' ' :: v).drop 4
          = e :: (k5 ++ ' ' :: v) := rfl
      rw [h5] at h2
      simp only [List.head?_cons, Option.any_some] at h2
      have he : isJsSpace e = false := by
        apply hk2
        simp
      rw [he] at h2
      exact absurd h2 (by simp)

/-! ### Unpacking the well-formedness predicates -/

lemma wfText_spec {v : JSStr} (h : wfText v = true) :
    v ≠ [] ∧ v.head?.all (fun c => !isJsSpace c) = true
      ∧ v.reverse.head?.all (fun c => !isJsSpace c) = true ∧ '\n' ∉ v := by
  rw [wfText] at h
  simp only [Bool.and_eq_true, Bool.not_eq_true', decide_eq_true_eq] at h
  refine ⟨?_, h.1.1.2, h.1.2, h.2⟩
  intro hv
  subst hv
  simp at h

lemma wfValue_spec {v : JSStr} (h : wfValue v = true) :
    v ≠ [] ∧ v.head?.all (fun c => !isJsSpace c) = true
      ∧ v.reverse.head?.all (fun c => !isJsSpace c) = true ∧ '\n' ∉ v
      ∧ joinSpaces (jsSplitWs v) = v := by
  rw [wfValue] at h
  simp only [Bool.and_eq_true, decide_eq_true_eq] at h
  obtain ⟨h1, h2⟩ := h
  obtain ⟨a, b, c', d⟩ := wfText_spec h1
  exact ⟨a, b, c', d, h2⟩

lemma wfKey_spec {k : JSStr} (h : wfKey k = true) :
    k ≠ [] ∧ (∀ c ∈ k, isJsSpace c = false) ∧ k.head? ≠ some '#'
      ∧ strLower k ∉ recognizedKeys := by
  rw [wfKey] at h
  simp only [Bool.and_eq_true, decide_eq_true_eq, List.all_eq_true,
    Bool.not_eq_true'] at h
  refine ⟨?_, h.1.1.2, h.1.2, h.2⟩
  intro hv
  subst hv
  simp at h

/-! ### Evaluating applyDirective on written directive lines -/

lemma expandTilde_of_head {home v : JSStr} (h : v.head? ≠ some '~') :
    expandTilde home v = v := by
  cases v with
  | nil => rfl
  | cons c t =>
    have hc : c ≠ '~' := by
      intro hcc
      exact h (by rw [hcc]; rfl)
    simp only [expandTilde]
    rw [if_neg hc]

lemma applyDirective_keyline {k v : JSStr} (home : JSStr) (c : SSHConfig)
    (hk : ∀ ch ∈ k, isJsSpace ch = false)
    (hvh : v.head?.all (fun ch => !isJsSpace ch) = true)
    (hvj : joinSpaces (jsSplitWs v) = v) :
    applyDirective home c (k ++ ' ' :: v)
      = if strLower k = ("hostname".toList) then { c with hostname := v }
        else if strLower k = ("port".toList) then { c with port := jsParseInt v }
        else if strLower k = ("user".toList) then { c with user := some v }
        else if strLower k = ("identityfile".toList) then
          { c with identityFile := some (expandTilde home v) }
        else if strLower k = ("preferredauthentications".toList) then
          { c with preferredAuthentications := some v }
        else
          { c with additionalOptions := setAdditionalOption c.additionalOptions k v } := by
  have hsplit : jsSplitWs (k ++ ' ' :: v) = k :: jsSplitWs v := jsSplitWs_sep hk hvh
  simp only [applyDirective, hsplit, hvj]

lemma applyDirective_hostname {v : JSStr} (home : JSStr) (c : SSHConfig)
    (hvh : v.head?.all (fun ch => !isJsSpace ch) = true)
    (hvj : joinSpaces (jsSplitWs v) = v) :
    applyDirective home c (("HostName".toList) ++ ' ' :: v) = { c with hostname := v } := by
  rw [applyDirective_keyline home c (by decide) hvh hvj, if_pos (by decide)]

lemma applyDirective_user {v : JSStr} (home : JSStr) (c : SSHConfig)
    (hvh : v.head?.all (fun ch => !isJsSpace ch) = true)
    (hvj : joinSpaces (jsSplitWs v) = v) :
    applyDirective home c (("User".toList) ++ ' ' :: v) = { c with user := some v } := by
  rw [applyDirective_keyline home c (by decide) hvh hvj,
    if_neg (by decide), if_neg (by decide), if_pos (by decide)]

lemma applyDirective_identityFile {v : JSStr} (home : JSStr) (c : SSHConfig)
    (hvh : v.head?.all (fun ch => !isJsSpace ch) = true)
    (hvj : joinSpaces (jsSplitWs v) = v) :
    applyDirective home c (("IdentityFile".toList) ++ ' ' :: v)
      = { c with identityFile := some (expandTilde home v) } := by
  rw [applyDirective_keyline home c (by decide) hvh hvj,
    if_neg (by decide), if_neg (by decide), if_neg (by decide), if_pos (by decide)]

lemma applyDirective_prefAuth {v : JSStr} (home : JSStr) (c : SSHConfig)
    (hvh : v.head?.all (fun ch => !isJsSpace ch) = true)
    (hvj : joinSpaces (jsSplitWs v) = v) :
    applyDirective home c (("PreferredAuthentications".toList) ++ ' ' :: v)
      = { c with preferredAuthentications := some v } := by
  rw [applyDirective_keyline home c (by decide) hvh hvj,
    if_neg (by decide), if_neg (by decide), if_neg (by decide), if_neg (by decide),
    if_pos (by decide)]

lemma intToStr_head_nonspace (p : Int) :
    (intToStr p).head?.all (fun ch => !isJsSpace ch) = true := by
  cases hi : intToStr p with
  | nil => simp
  | cons c0 cs =>
    have := intToStr_all_nonspace p c0 (hi ▸ List.mem_cons_self c0 cs)
    simp [this]

lemma applyDirective_port (home : JSStr) (c : SSHConfig) (p : Int) :
    applyDirective home c (("Port".toList) ++ ' ' :: intToStr p)
      = { c with port := some p } := by
  have hsplit : jsSplitWs (intToStr p) = [intToStr p] :=
    jsSplitWs_all_nonspace (intToStr_all_nonspace p)
  have hvj : joinSpaces (jsSplitWs (intToStr p)) = intToStr p := by
    rw [hsplit]
    rfl
  rw [applyDirective_keyline home c (by decide) (intToStr_head_nonspace p) hvj,
    if_neg (by decide), if_pos (by decide), jsParseInt_intToStr]

lemma applyDirective_option {k v : JSStr} (home : JSStr) (c : SSHConfig)
    (hk : wfKey k = true)
    (hvh : v.head?.all (fun ch => !isJsSpace ch) = true)
    (hvj : joinSpaces (jsSplitWs v) = v) :
    applyDirective home c (k ++ ' ' :: v)
      = { c with additionalOptions := setAdditionalOption c.additionalOptions k v } := by
  obtain ⟨hk1, hk2, hk3, hk4⟩ := wfKey_spec hk
  rw [applyDirective_keyline home c hk2 hvh hvj]
  have h1 : strLower k ≠ ("hostname".toList) := by
    intro he
    exact hk4 (by rw [he]; simp [recognizedKeys])
  have h2 : strLower k ≠ ("port".toList) := by
    intro he
    exact hk4 (by rw [he]; simp [recognizedKeys])
  have h3 : strLower k ≠ ("user".toList) := by
    intro he
    exact hk4 (by rw [he]; simp [recognizedKeys])
  have h4 : strLower k ≠ ("identityfile".toList) := by
    intro he
    exact hk4 (by rw [he]; simp [recognizedKeys])
  have h5 : strLower k ≠ ("preferredauthentications".toList) := by
    intro he
    exact hk4 (by rw [he]; simp [recognizedKeys])
  rw [if_neg h1, if_neg h2, if_neg h3, if_neg h4, if_neg h5]

/-! ### Processing whole written lines -/

lemma parse_blank_line (home : JSStr) (ls : List JSStr) (cur : Option SSHConfig) :
    parseConfigLines home ([] :: ls) cur = parseConfigLines home ls cur :=
  parseConfigLines_skip home ls cur (Or.inl rfl)

lemma parse_host_line {h : JSStr} (home : JSStr) (ls : List JSStr) (cur : Option SSHConfig)
    (hne : h ≠ [])
    (hh : h.head?.all (fun c => !isJsSpace c) = true)
    (hr : h.reverse.head?.all (fun c => !isJsSpace c) = true) :
    parseConfigLines home ((("Host ".toList) ++ h) :: ls) cur
      = commitOf cur ++ parseConfigLines home ls (some { host := h, hostname := [] }) := by
  have htrim := host_line_trim hne hr
  have hskip : ¬(jsTrim (("Host ".toList) ++ h) = []
      ∨ (jsTrim (("Host ".toList) ++ h)).head? = some '#') := by
    rw [htrim]
    rintro (he | hh')
    · simp at he
    · simp at hh'
  have hmatch : matchHostDirective (jsTrim (("Host ".toList) ++ h)) = some h := by
    rw [htrim]
    exact matchHostDirective_hostline hne hh
  rw [parseConfigLines_host home ls cur hskip hmatch, jsTrim_eq_self hh hr]

lemma parse_directive_line {k v : JSStr} (home : JSStr) (ls : List JSStr) (c : SSHConfig)
    (hk1 : k ≠ []) (hk2 : ∀ ch ∈ k, isJsSpace ch = false)
    (hk3 : k.head? ≠ some '#')
    (hk4 : strLower k ≠ ("host".toList))
    (hvr : v.reverse.head?.all (fun ch => !isJsSpace ch) = true)
    (hvne : v ≠ []) :
    parseConfigLines home ((("    ".toList) ++ k ++ ' ' :: v) :: ls) (some c)
      = parseConfigLines home ls (some (applyDirective home c (k ++ ' ' :: v))) := by
  obtain ⟨a, k', rfl⟩ : ∃ a k', k = a :: k' := by
    cases k with
    | nil => exact absurd rfl hk1
    | cons a k' => exact ⟨a, k', rfl⟩
  have htrim := directive_line_trim hk1 hk2 hvr hvne
  have hskip : ¬(jsTrim (("    ".toList) ++ (a :: k') ++ ' ' :: v) = []
      ∨ (jsTrim (("    ".toList) ++ (a :: k') ++ ' ' :: v)).head? = some '#') := by
    rw [htrim]
    rintro (he | hh')
    · simp at he
    · simp only [List.cons_append, List.head?_cons, Option.some.injEq] at hh'
      exact hk3 (by simp [hh'])
  have hmatch : matchHostDirective (jsTrim (("    ".toList) ++ (a :: k') ++ ' ' :: v))
      = none := by
    rw [htrim]
    exact matchHostDirective_keyline hk1 hk2 hk4
  rw [parseConfigLines_directive home ls c hskip hmatch, htrim]

/-! ### Segment lemmas: one written field of a block at a time -/

lemma setAdditionalOption_append {l : List (JSStr × JSStr)} {k : JSStr} (v : JSStr)
    (h : k ∉ l.map Prod.fst) :
    setAdditionalOption l k v = l ++ [(k, v)] := by
  induction l with
  | nil => rfl
  | cons kv rest ih =>
    obtain ⟨k', v'⟩ := kv
    have hk : k' ≠ k := by
      intro he
      exact h (by simp [he])
    rw [setAdditionalOption, if_neg hk, ih (fun hm => h (by simp [hm]))]
    rfl

lemma intToStr_rev_head_nonspace (p : Int) :
    (intToStr p).reverse.head?.all (fun ch => !isJsSpace ch) = true := by
  cases hi : (intToStr p).reverse with
  | nil => simp
  | cons c0 cs =>
    have hc : c0 ∈ intToStr p := by
      have hm : c0 ∈ (intToStr p).reverse := hi ▸ List.mem_cons_self c0 cs
      simpa using hm
    simp [intToStr_all_nonspace p c0 hc]

lemma parse_hostname_line {v : JSStr} (home : JSStr) (ls : List JSStr) (c : SSHConfig)
    (hv : wfValue v = true) :
    parseConfigLines home ((("    HostName ".toList) ++ v) :: ls) (some c)
      = parseConfigLines home ls (some { c with hostname := v }) := by
  obtain ⟨hne, hh, hr, hnl, hj⟩ := wfValue_spec hv
  have hstep := parse_directive_line (k := ("HostName".toList)) (v := v) home ls c
    (by decide) (by decide) (by decide) (by decide) hr hne
  have hline : (("    HostName ".toList) ++ v)
      = (("    ".toList) ++ ("HostName".toList) ++ ' ' :: v) := rfl
  rw [hline, hstep, applyDirective_hostname home c hh hj]

lemma parse_port_segment {port : Option Int} (home : JSStr) (rest : List JSStr)
    (P : SSHConfig) (hP : P.port = none)
    (hwf : (match port with | none => true | some p => p != 0) = true) :
    parseConfigLines home (portLines port ++ rest) (some P)
      = parseConfigLines home rest (some { P with port := port }) := by
  cases port with
  | none =>
    rw [portLines, List.nil_append, ← hP]
  | some p =>
    have hp : (p != 0) = true := hwf
    rw [portLines, if_pos hp]
    have hstep := parse_directive_line (k := ("Port".toList)) (v := intToStr p) home rest P
      (by decide) (by decide) (by decide) (by decide)
      (intToStr_rev_head_nonspace p) (intToStr_ne_nil p)
    have hline : (("    Port ".toList) ++ intToStr p)
        = (("    ".toList) ++ ("Port".toList) ++ ' ' :: intToStr p) := rfl
    rw [List.singleton_append, hline, hstep, applyDirective_port home P p]

lemma parse_user_segment {user : Option JSStr} (home : JSStr) (rest : List JSStr)
    (P : SSHConfig) (hP : P.user = none)
    (hwf : (match user with | none => true | some v => wfValue v) = true) :
    parseConfigLines home (optValueLines ("    User ".toList) user ++ rest) (some P)
      = parseConfigLines home rest (some { P with user := user }) := by
  cases user with
  | none =>
    rw [optValueLines, List.nil_append, ← hP]
  | some v =>
    have hv : wfValue v = true := hwf
    obtain ⟨hne, hh, hr, hnl, hj⟩ := wfValue_spec hv
    have hemp : (!v.isEmpty) = true := by
      cases v with
      | nil => exact absurd rfl hne
      | cons _ _ => rfl
    rw [optValueLines, if_pos hemp]
    have hstep := parse_directive_line (k := ("User".toList)) (v := v) home rest P
      (by decide) (by decide) (by decide) (by decide) hr hne
    have hline : (("    User ".toList) ++ v)
        = (("    ".toList) ++ ("User".toList) ++ ' ' :: v) := rfl
    rw [List.singleton_append, hline, hstep, applyDirective_user home P hh hj]

lemma parse_identityFile_segment {idf : Option JSStr} (home : JSStr) (rest : List JSStr)
    (P : SSHConfig) (hP : P.identityFile = none)
    (hwf : (match idf with
      | none => true
      | some v => wfValue v && decide (v.head? ≠ some '~')) = true) :
    parseConfigLines home (optValueLines ("    IdentityFile ".toList) idf ++ rest) (some P)
      = parseConfigLines home rest (some { P with identityFile := idf }) := by
  cases idf with
  | none =>
    rw [optValueLines, List.nil_append, ← hP]
  | some v =>
    have hv' : (wfValue v && decide (v.head? ≠ some '~')) = true := hwf
    simp only [Bool.and_eq_true, decide_eq_true_eq] at hv'
    obtain ⟨hv, htilde⟩ := hv'
    obtain ⟨hne, hh, hr, hnl, hj⟩ := wfValue_spec hv
    have hemp : (!v.isEmpty) = true := by
      cases v with
      | nil => exact absurd rfl hne
      | cons _ _ => rfl
    rw [optValueLines, if_pos hemp]
    have hstep := parse_directive_line (k := ("IdentityFile".toList)) (v := v) home rest P
      (by decide) (by decide) (by decide) (by decide) hr hne
    have hline : (("    IdentityFile ".toList) ++ v)
        = (("    ".toList) ++ ("IdentityFile".toList) ++ ' ' :: v) := rfl
    rw [List.singleton_append, hline, hstep, applyDirective_identityFile home P hh hj,
      expandTilde_of_head htilde]

lemma parse_prefAuth_segment {pa : Option JSStr} (home : JSStr) (rest : List JSStr)
    (P : SSHConfig) (hP : P.preferredAuthentications = none)
    (hwf : (match pa with | none => true | some v => wfValue v) = true) :
    parseConfigLines home
        (optValueLines ("    PreferredAuthentications ".toList) pa ++ rest) (some P)
      = parseConfigLines home rest (some { P with preferredAuthentications := pa }) := by
  cases pa with
  | none =>
    rw [optValueLines, List.nil_append, ← hP]
  | some v =>
    have hv : wfValue v = true := hwf
    obtain ⟨hne, hh, hr, hnl, hj⟩ := wfValue_spec hv
    have hemp : (!v.isEmpty) = true := by
      cases v with
      | nil => exact absurd rfl hne
      | cons _ _ => rfl
    rw [optValueLines, if_pos hemp]
    have hstep := parse_directive_line (k := ("PreferredAuthentications".toList)) (v := v)
      home rest P (by decide) (by decide) (by decide) (by decide) hr hne
    have hline : (("    PreferredAuthentications ".toList) ++ v)
        = (("    ".toList) ++ ("PreferredAuthentications".toList) ++ ' ' :: v) := rfl
    rw [List.singleton_append, hline, hstep, applyDirective_prefAuth home P hh hj]

lemma parse_options_segment {opts : List (JSStr × JSStr)} (home : JSStr)
    (rest : List JSStr) (acc : List (JSStr × JSStr)) (P : SSHConfig)
    (hP : P.additionalOptions = acc)
    (hwf : ∀ kv ∈ opts, (wfKey kv.1 && wfValue kv.2) = true)
    (hnd : ((acc ++ opts).map Prod.fst).Nodup) :
    parseConfigLines home (optionLines opts ++ rest) (some P)
      = parseConfigLines home rest (some { P with additionalOptions := acc ++ opts }) := by
  induction opts generalizing P acc with
  | nil =>
    rw [optionLines, List.map_nil, List.nil_append, List.append_nil, ← hP]
  | cons kv opts ih =>
    obtain ⟨k, v⟩ := kv
    have hkv := hwf (k, v) (List.mem_cons_self _ _)
    simp only [Bool.and_eq_true] at hkv
    obtain ⟨hk, hv⟩ := hkv
    obtain ⟨hk1, hk2, hk3, hk4⟩ := wfKey_spec hk
    obtain ⟨hne, hh, hr, hnl, hj⟩ := wfValue_spec hv
    have hk4' : strLower k ≠ ("host".toList) := by
      intro he
      exact hk4 (by rw [he]; simp [recognizedKeys])
    have hknotin : k ∉ acc.map Prod.fst := by
      intro hkin
      rw [List.map_append] at hnd
      obtain ⟨hA, hB, hdisj⟩ := List.nodup_append.mp hnd
      exact hdisj hkin (by simp)
    rw [optionLines, List.map_cons, List.cons_append,
      parse_directive_line home _ P hk1 hk2 hk3 hk4' hr hne,
      applyDirective_option home P hk hh hj, hP,
      setAdditionalOption_append v hknotin]
    have hstep := ih (acc ++ [(k, v)]) { P with additionalOptions := acc ++ [(k, v)] }
      rfl (fun kv hm => hwf kv (List.mem_cons_of_mem _ hm))
      (by simpa [List.append_assoc] using hnd)
    rw [show optionLines opts = List.map
        (fun kv => ("    ".toList) ++ kv.1 ++ ' ' :: kv.2) opts from rfl] at hstep
    rw [hstep]
    simp [List.append_assoc]

/-! ### Processing a whole written block -/

lemma wellFormedConfig_ne {c : SSHConfig} (h : wellFormedConfig c = true) :
    c.host ≠ [] ∧ c.hostname ≠ [] := by
  rw [wellFormedConfig] at h
  simp only [Bool.and_eq_true] at h
  exact ⟨(wfText_spec h.1.1.1.1.1.1.1).1, (wfValue_spec h.1.1.1.1.1.1.2).1⟩

lemma parse_hostBlock {c : SSHConfig} (home : JSStr) (rest : List JSStr)
    (cur : Option SSHConfig) (hwf : wellFormedConfig c = true) :
    parseConfigLines home (hostBlockLines c ++ rest) cur
      = commitOf cur ++ parseConfigLines home rest (some c) := by
  obtain ⟨chost, chn, cport, cuser, cid, cpa, copts⟩ := c
  rw [wellFormedConfig] at hwf
  simp only [Bool.and_eq_true] at hwf
  obtain ⟨⟨⟨⟨⟨⟨⟨hhost, hhn⟩, hport⟩, huser⟩, hid⟩, hpa⟩, hopts⟩, hnd⟩ := hwf
  obtain ⟨hne, hh, hr, hnl⟩ := wfText_spec hhost
  rw [hostBlockLines]
  simp only [List.append_assoc, List.cons_append, List.nil_append]
  rw [parse_host_line home _ cur hne hh hr]
  congr 1
  rw [parse_hostname_line home _ _ hhn,
    parse_port_segment home _ _ rfl hport,
    parse_user_segment home _ _ rfl huser,
    parse_identityFile_segment home _ _ rfl hid,
    parse_prefAuth_segment home _ _ rfl hpa,
    parse_options_segment home _ [] _ rfl
      (fun kv hm => (List.all_eq_true.mp hopts) kv hm)
      (by simpa using of_decide_eq_true hnd),
    parse_blank_line]
  simp

lemma parse_blocks {entries : List SSHConfig} (home : JSStr) (cur : Option SSHConfig)
    (hwf : ∀ c ∈ entries, wellFormedConfig c = true) :
    parseConfigLines home ((entries.map hostBlockLines).flatten ++ [[]]) cur
      = commitOf cur ++ entries := by
  induction entries generalizing cur with
  | nil =>
    simp only [List.map_nil, List.flatten_nil, List.nil_append]
    rw [parse_blank_line, parseConfigLines_nil]
    simp
  | cons c cs ih =>
    have hc := hwf c (List.mem_cons_self c cs)
    rw [List.map_cons, List.flatten_cons, List.append_assoc,
      parse_hostBlock home _ cur hc,
      ih (some c) (fun x hx => hwf x (List.mem_cons_of_mem c hx))]
    obtain ⟨hne1, hne2⟩ := wellFormedConfig_ne hc
    rw [commitOf, if_pos ⟨hne1, hne2⟩]
    simp

lemma mem_portLines {port : Option Int} {l : JSStr} (h : l ∈ portLines port) :
    ∃ p, port = some p ∧ l = ("    Port ".toList) ++ intToStr p := by
  cases port with
  | none => simp [portLines] at h
  | some p =>
    rw [portLines] at h
    by_cases hp : (p != 0) = true
    · rw [if_pos hp, List.mem_singleton] at h
      exact ⟨p, rfl, h⟩
    · rw [if_neg hp] at h
      simp at h

lemma mem_optValueLines {label : JSStr} {v : Option JSStr} {l : JSStr}
    (h : l ∈ optValueLines label v) : ∃ s, v = some s ∧ l = label ++ s := by
  cases v with
  | none => simp [optValueLines] at h
  | some s =>
    rw [optValueLines] at h
    by_cases hs : (!s.isEmpty) = true
    · rw [if_pos hs, List.mem_singleton] at h
      exact ⟨s, rfl, h⟩
    · rw [if_neg hs] at h
      simp at h

lemma hostBlockLines_no_nl {c : SSHConfig} (hwf : wellFormedConfig c = true) :
    ∀ l ∈ hostBlockLines c, '\n' ∉ l := by
  obtain ⟨chost, chn, cport, cuser, cid, cpa, copts⟩ := c
  rw [wellFormedConfig] at hwf
  simp only [Bool.and_eq_true] at hwf
  obtain ⟨⟨⟨⟨⟨⟨⟨hhost, hhn⟩, hport⟩, huser⟩, hid⟩, hpa⟩, hopts⟩, hnd⟩ := hwf
  intro l hl hnlin
  rw [hostBlockLines] at hl
  rcases List.mem_append.mp hl with h | hlast
  · rcases List.mem_append.mp h with h | hoptl
    · rcases List.mem_append.mp h with h | hpal
      · rcases List.mem_append.mp h with h | hidl
        · rcases List.mem_append.mp h with h | huserl
          · rcases List.mem_append.mp h with hfirst | hportl
            · rcases List.mem_cons.mp hfirst with h | h'
              · subst h
                rcases List.mem_append.mp hnlin with hm | hm
                · simp at hm
                · exact (wfText_spec hhost).2.2.2 hm
              rcases List.mem_cons.mp h' with h | h''
              · subst h
                rcases List.mem_append.mp hnlin with hm | hm
                · simp at hm
                · exact (wfValue_spec hhn).2.2.2.1 hm
              · simp at h''
            · obtain ⟨p, hpe, rfl⟩ := mem_portLines hportl
              rcases List.mem_append.mp hnlin with hm | hm
              · simp at hm
              · exact absurd (intToStr_all_nonspace p '\n' hm) (by decide)
          · obtain ⟨s, hse, rfl⟩ := mem_optValueLines huserl
            have hse' : cuser = some s := hse
            rw [hse'] at huser
            have hvs : wfValue s = true := huser
            rcases List.mem_append.mp hnlin with hm | hm
            · simp at hm
            · exact (wfValue_spec hvs).2.2.2.1 hm
        · obtain ⟨s, hse, rfl⟩ := mem_optValueLines hidl
          have hse' : cid = some s := hse
          rw [hse'] at hid
          have hvs : (wfValue s && decide (s.head? ≠ some '~')) = true := hid
          simp only [Bool.and_eq_true] at hvs
          rcases List.mem_append.mp hnlin with hm | hm
          · simp at hm
          · exact (wfValue_spec hvs.1).2.2.2.1 hm
      · obtain ⟨s, hse, rfl⟩ := mem_optValueLines hpal
        have hse' : cpa = some s := hse
        rw [hse'] at hpa
        have hvs : wfValue s = true := hpa
        rcases List.mem_append.mp hnlin with hm | hm
        · simp at hm
        · exact (wfValue_spec hvs).2.2.2.1 hm
    · rw [optionLines, List.mem_map] at hoptl
      obtain ⟨⟨k, v⟩, hmem, hline⟩ := hoptl
      have hkv := (List.all_eq_true.mp hopts) (k, v) hmem
      simp only [Bool.and_eq_true] at hkv
      obtain ⟨hk2, hk3, _⟩ := (wfKey_spec hkv.1).2
      subst hline
      rcases List.mem_append.mp hnlin with hm | hm
      · rcases List.mem_append.mp hm with hm' | hm'
        · simp at hm'
        · exact absurd (hk2 '\n' hm') (by decide)
      · rcases List.mem_cons.mp hm with hm'' | hm''
        · simp at hm''
        · exact (wfValue_spec hkv.2).2.2.2.1 hm''
  · rw [List.mem_singleton] at hlast
    subst hlast
    simp at hnlin

/-- Round trip of the config codec for serialization-safe entries: parsing
the written file recovers the entries exactly. -/
lemma parse_write_roundtrip {entries : List SSHConfig} (home : JSStr)
    (hwf : ∀ c ∈ entries, wellFormedConfig c = true) :
    parseSSHConfig home (writeSSHConfigContent entries) = entries := by
  rw [parseSSHConfig, writeSSHConfigContent]
  have hlines : ∀ l ∈ (("# SSH Config File".toList)
      :: ("# Generated by SSH Key Manager".toList)
      :: [] :: (entries.map hostBlockLines).flatten), '\n' ∉ l := by
    intro l hl
    rcases List.mem_cons.mp hl with h | h
    · subst h
      decide
    rcases List.mem_cons.mp h with h' | h'
    · subst h'
      decide
    rcases List.mem_cons.mp h' with h'' | h''
    · subst h''
      simp
    · rw [List.mem_flatten] at h''
      obtain ⟨bl, hbl, hlbl⟩ := h''
      rw [List.mem_map] at hbl
      obtain ⟨c, hc, hbc⟩ := hbl
      exact hostBlockLines_no_nl (hwf c hc) l (hbc ▸ hlbl)
  rw [splitOnNl_linesJoin hlines]
  simp only [List.cons_append, List.nil_append]
  rw [parseConfigLines_skip _ _ _ (Or.inr (by decide)),
    parseConfigLines_skip _ _ _ (Or.inr (by decide)),
    parse_blank_line,
    parse_blocks home none hwf]
  rfl

/-! ### Completeness invariant of the parser -/

lemma commitOf_ne {cur : Option SSHConfig} {c : SSHConfig} (h : c ∈ commitOf cur) :
    c.host ≠ [] ∧ c.hostname ≠ [] := by
  cases cur with
  | none => simp [commitOf] at h
  | some d =>
    rw [commitOf] at h
    by_cases hd : d.host ≠ [] ∧ d.hostname ≠ []
    · rw [if_pos hd, List.mem_singleton] at h
      subst h
      exact hd
    · rw [if_neg hd] at h
      simp at h

lemma parseConfigLines_complete {home : JSStr} :
    ∀ (lines : List JSStr) (cur : Option SSHConfig) (c : SSHConfig),
      c ∈ parseConfigLines home lines cur → c.host ≠ [] ∧ c.hostname ≠ [] := by
  intro lines
  induction lines with
  | nil =>
    intro cur c h
    exact commitOf_ne h
  | cons l ls ih =>
    intro cur c h
    simp only [parseConfigLines] at h
    by_cases hskip : (jsTrim l = [] ∨ (jsTrim l).head? = some '#')
    · rw [if_pos hskip] at h
      exact ih cur c h
    · rw [if_neg hskip] at h
      cases hm : matchHostDirective (jsTrim l) with
      | some cap =>
        rw [hm] at h
        rcases List.mem_append.mp h with h' | h'
        · exact commitOf_ne h'
        · exact ih _ c h'
      | none =>
        rw [hm] at h
        cases cur with
        | none => exact ih none c h
        | some d => exact ih _ c h

/-! ### Claim C1: round trip of the config codec -/

/-- The concrete entry used to exhibit the failure of the claim as stated:
port 0 is falsy in JS, so writeSSHConfig omits its Port line. -/
def c1BadEntry : SSHConfig :=
  { host := ("a".toList), hostname := ("h".toList), port := some 0 }

/-- Claim C1 as stated is false: this entry has a unique non-empty alias
and a non-empty hostname, yet the round trip does not preserve its port.
The parsed sequence has the same length but its only entry has port none,
because port 0 is falsy and writeSSHConfig drops the Port line. -/
theorem claim_C1_counterexample :
    (([c1BadEntry].map SSHConfig.host).Nodup
      ∧ (∀ c ∈ [c1BadEntry], c.host ≠ [] ∧ c.hostname ≠ []))
    ∧ (parseSSHConfig [] (writeSSHConfigContent [c1BadEntry])).length = 1
    ∧ (parseSSHConfig [] (writeSSHConfigContent [c1BadEntry])).map SSHConfig.port
        = [none]
    ∧ parseSSHConfig [] (writeSSHConfigContent [c1BadEntry]) ≠ [c1BadEntry] := by
  refine ⟨⟨by decide, by decide⟩, by decide, by decide, by decide⟩

/-- Claim C1 (amended): for any sequence of entries with pairwise-distinct
aliases that are serialization-safe (wellFormedConfig: a non-empty trimmed
newline-free alias, non-empty whitespace-canonical hostname and optional
values, a port that is neither 0 nor NaN, an identityFile value without
the home-directory shorthand, and additional directives with distinct,
whitespace-free keywords that are not specially treated keywords), parsing
the text produced by serializing the sequence yields a sequence of the
same length whose entries equal the inputs in alias, hostname, port, user,
identityFile and preferredAuthentications, with an equal additional-
directive mapping in first-seen order.  Alias distinctness is carried
over from the claim as stated; the round trip holds without it, since the
parser does not deduplicate. -/
theorem claim_C1_roundtrip (home : JSStr) (entries : List SSHConfig)
    (hdistinct : (entries.map SSHConfig.host).Nodup)
    (hwf : ∀ c ∈ entries, wellFormedConfig c = true) :
    parseSSHConfig home (writeSSHConfigContent entries) = entries :=
  parse_write_roundtrip home hwf

/-- The concrete entry list used to witness the amended claim C1. -/
def c1GoodEntries : List SSHConfig :=
  [{ host := ("github".toList), hostname := ("github.com".toList),
     port := some 22, user := some ("git".toList),
     identityFile := some ("/home/u/.ssh/id_ed25519".toList),
     preferredAuthentications := some ("publickey".toList),
     additionalOptions := [(("ServerAliveInterval".toList), ("60".toList))] },
   { host := ("my server".toList), hostname := ("10.0.0.1".toList) }]

/-- Witness for the amended claim C1 at a concrete entry list. -/
theorem claim_C1_witness :
    (c1GoodEntries.map SSHConfig.host).Nodup
    ∧ (∀ c ∈ c1GoodEntries, wellFormedConfig c = true)
    ∧ parseSSHConfig ("/home/u".toList) (writeSSHConfigContent c1GoodEntries)
        = c1GoodEntries :=
  ⟨by decide, by decide,
    claim_C1_roundtrip ("/home/u".toList) c1GoodEntries (by decide) (by decide)⟩

/-! ### Claim C7: blocks without a hostname are dropped -/

/-- Claim C7: every entry returned by parseSSHConfig has a non-empty
hostname (and a non-empty alias); hence a Host block whose hostname is
never set to a non-empty value is absent from the parsed sequence, whether
the block is closed by a later Host line or is still open at the end of
input. -/
theorem claim_C7_incomplete_dropped (home content : JSStr) (c : SSHConfig)
    (h : c ∈ parseSSHConfig home content) : c.hostname ≠ [] ∧ c.host ≠ [] := by
  obtain ⟨h1, h2⟩ := parseConfigLines_complete (splitOnNl content) none c h
  exact ⟨h2, h1⟩

/-- Witness for claim C7: a config text with an incomplete block closed by
a later Host line, a complete block, and an incomplete block open at the
end of input; only the complete block is returned, and the claim theorem
applies to it. -/
theorem claim_C7_witness :
    parseSSHConfig [] ("Host a\nHost b\nHostName x\nHost c".toList)
      = [{ host := ("b".toList), hostname := ("x".toList) }]
    ∧ ({ host := ("b".toList), hostname := ("x".toList) } : SSHConfig).hostname ≠ [] := by
  refine ⟨by decide, ?_⟩
  exact (claim_C7_incomplete_dropped [] ("Host a\nHost b\nHostName x\nHost c".toList)
    { host := ("b".toList), hostname := ("x".toList) } (by decide)).1

/-! ### addHostConfig (claim C5) -/

/-- addHostConfig of configParser.ts on given file content: parse the
existing entries, throw on a duplicate alias, otherwise append the new
entry and regenerate the whole file.  The thrown JS error is the error
case; the write happens only on the ok path. -/
def addHostConfig (home content : JSStr) (config : SSHConfig) : Except JSStr JSStr :=
  if (parseSSHConfig home content).any (fun c => decide (c.host = config.host)) then
    Except.error (("Host configuration already exists: ".toList) ++ config.host)
  else
    Except.ok (writeSSHConfigContent (parseSSHConfig home content ++ [config]))

/-- The configuration file content after a call to addHostConfig: the file
is rewritten only on the ok path, so a failed call leaves it unchanged. -/
def addHostConfigFileAfter (home content : JSStr) (config : SSHConfig) : JSStr :=
  match addHostConfig home content config with
  | Except.ok newContent => newContent
  | Except.error _ => content

/-- Claim C5: adding a host configuration whose alias already occurs among
the parsed entries fails with a conflict error, and the configuration file
content is unchanged by the failed call. -/
theorem claim_C5_duplicate_alias (home content : JSStr) (config : SSHConfig)
    (h : config.host ∈ (parseSSHConfig home content).map SSHConfig.host) :
    addHostConfig home content config
      = Except.error (("Host configuration already exists: ".toList) ++ config.host)
    ∧ addHostConfigFileAfter home content config = content := by
  have hany : (parseSSHConfig home content).any
      (fun c => decide (c.host = config.host)) = true := by
    rw [List.any_eq_true]
    rw [List.mem_map] at h
    obtain ⟨c, hc, he⟩ := h
    exact ⟨c, hc, by simp [he]⟩
  constructor
  · rw [addHostConfig, if_pos hany]
  · rw [addHostConfigFileAfter, addHostConfig, if_pos hany]

/-- Witness for claim C5 on a concrete file with a duplicate alias. -/
theorem claim_C5_witness :
    ("a".toList) ∈ (parseSSHConfig []
        ("Host a\nHostName h\n".toList)).map SSHConfig.host
    ∧ addHostConfigFileAfter [] ("Host a\nHostName h\n".toList)
        { host := ("a".toList), hostname := ("other".toList) }
        = ("Host a\nHostName h\n".toList) :=
  ⟨by decide,
    (claim_C5_duplicate_alias [] ("Host a\nHostName h\n".toList)
      { host := ("a".toList), hostname := ("other".toList) } (by decide)).2⟩

/-! ### createBackup (claim C2) -/

/-- The observable result of the staging phase of createBackup. -/
structure BackupStaging where
  metadataFiles : List JSStr
  stagedFiles : List JSStr
  archiveFiles : List JSStr
  deriving DecidableEq, Repr

/-- createBackup of backup.ts, abstracted over the directory listing and
over which per-file copies succeed.  The metadata manifest is computed
from the listing before any copy; each copy failure is caught, logged and
skipped; the archive is built from the staging directory, which holds the
successfully copied files plus the generated metadata file. -/
def createBackup (dirFiles : List JSStr) (copyOk : JSStr → Bool) : BackupStaging :=
  { metadataFiles :=
      dirFiles.filter (fun f => decide (f ≠ (".".toList)) && decide (f ≠ ("..".toList))),
    stagedFiles :=
      (dirFiles.filter (fun f => decide (f ≠ (".".toList))
        && decide (f ≠ ("..".toList)))).filter copyOk,
    archiveFiles :=
      (dirFiles.filter (fun f => decide (f ≠ (".".toList))
        && decide (f ≠ ("..".toList)))).filter copyOk
      ++ [("backup-metadata.json".toList)] }

/-- Claim C2 as stated is false in its second half: with files a and b
and a copy that fails exactly on b, the backup completes but b still
appears in the files manifest of the metadata — the manifest is computed
before staging and a failed file is not removed from it. -/
theorem claim_C2_counterexample :
    (fun f => !(f == ("b".toList))) ("b".toList) = false
    ∧ ("b".toList) ∈ (createBackup [("a".toList), ("b".toList)]
        (fun f => !(f == ("b".toList)))).metadataFiles
    ∧ ("b".toList) ∉ (createBackup [("a".toList), ("b".toList)]
        (fun f => !(f == ("b".toList)))).stagedFiles := by
  refine ⟨by decide, by decide, by decide⟩

/-- Claim C2 (amended): a per-file copy failure during staging does not
abort createBackup — the archive is still produced, containing every file
whose copy succeeded plus the metadata file — but the failed file is NOT
omitted from the files manifest: it still appears there, because the
manifest is computed from the directory listing before staging. -/
theorem claim_C2_copy_failure (dirFiles : List JSStr) (copyOk : JSStr → Bool)
    (f : JSStr) (hf : f ∈ dirFiles) (hne1 : f ≠ (".".toList))
    (hne2 : f ≠ ("..".toList)) (hfail : copyOk f = false) :
    f ∈ (createBackup dirFiles copyOk).metadataFiles
    ∧ f ∉ (createBackup dirFiles copyOk).stagedFiles
    ∧ (∀ g ∈ (createBackup dirFiles copyOk).metadataFiles,
        copyOk g = true → g ∈ (createBackup dirFiles copyOk).stagedFiles)
    ∧ ("backup-metadata.json".toList) ∈ (createBackup dirFiles copyOk).archiveFiles := by
  refine ⟨?_, ?_, ?_, ?_⟩
  · rw [createBackup]
    exact List.mem_filter.mpr ⟨hf,
      by simp only [Bool.and_eq_true, decide_eq_true_eq]; exact ⟨hne1, hne2⟩⟩
  · rw [createBackup]
    intro hmem
    have := (List.mem_filter.mp hmem).2
    rw [hfail] at this
    exact absurd this (by simp)
  · intro g hg hok
    rw [createBackup] at hg ⊢
    exact List.mem_filter.mpr ⟨hg, hok⟩
  · rw [createBackup]
    simp

/-- Witness for the amended claim C2 at a concrete listing where the copy
of b fails. -/
theorem claim_C2_witness :
    ("b".toList) ∈ (createBackup [("a".toList), ("b".toList)]
        (fun f => !(f == ("b".toList)))).metadataFiles
    ∧ ("b".toList) ∉ (createBackup [("a".toList), ("b".toList)]
        (fun f => !(f == ("b".toList)))).stagedFiles := by
  have h := claim_C2_copy_failure [("a".toList), ("b".toList)]
    (fun f => !(f == ("b".toList))) ("b".toList)
    (by decide) (by decide) (by decide) (by decide)
  exact ⟨h.1, h.2.1⟩

/-! ### restoreBackup conflict policy (claim C3) -/

/-- The restore options of shared/types.ts that drive the conflict
policy. -/
structure RestoreOptions where
  overwriteExisting : Bool
  mergeDuplicates : Bool
  deriving DecidableEq, Repr

/-- A destination directory modelled as an association list from file name
to content. -/
abbrev FileMap := List (JSStr × JSStr)

/-- Lookup of a file by name, the model of the fileExists check and of
reading a destination file. -/
def lookupFile : FileMap → JSStr → Option JSStr
  | [], _ => none
  | (n, v) :: rest, m => if n = m then some v else lookupFile rest m

/-- fs.copyFile toward a destination: overwrites an existing name in
place, otherwise creates the file. -/
def insertFile : FileMap → JSStr → JSStr → FileMap
  | [], n, v => [(n, v)]
  | (n', v') :: rest, n, v =>
    if n' = n then (n, v) :: rest else (n', v') :: insertFile rest n v

/-- The conflict policy applied by restoreBackup to one extracted file:
if the destination exists and overwriteExisting is unset, either copy
under the timestamp-suffixed name (mergeDuplicates) or skip; otherwise
copy to the destination name.  ts is the Date.now timestamp rendered into
the merged name. -/
def restoreFileStep (opts : RestoreOptions) (ts : JSStr) (fs : FileMap)
    (file : JSStr × JSStr) : FileMap :=
  if (lookupFile fs file.1).isSome && !opts.overwriteExisting then
    if opts.mergeDuplicates then
      insertFile fs (file.1 ++ (".restored-".toList) ++ ts) file.2
    else fs
  else insertFile fs file.1 file.2

/-- The restore loop of restoreBackup: the metadata file and the dot
entries are filtered out, every remaining extracted file is processed in
order by the conflict policy, and processing always continues with the
remaining files. -/
def restoreFilesLoop (opts : RestoreOptions) (ts : JSStr)
    (extracted : List (JSStr × JSStr)) (fs : FileMap) : FileMap :=
  (extracted.filter (fun f => decide (f.1 ≠ ("backup-metadata.json".toList))
      && decide (f.1 ≠ (".".toList)) && decide (f.1 ≠ ("..".toList)))).foldl
    (restoreFileStep opts ts) fs

lemma lookupFile_insert_ne {fs : FileMap} {n m : JSStr} (v : JSStr) (h : n ≠ m) :
    lookupFile (insertFile fs n v) m = lookupFile fs m := by
  induction fs with
  | nil =>
    simp only [insertFile, lookupFile]
    rw [if_neg h]
  | cons kv rest ih =>
    obtain ⟨n', v'⟩ := kv
    simp only [insertFile]
    by_cases he : n' = n
    · rw [if_pos he]
      simp only [lookupFile]
      rw [if_neg h, he, if_neg h]
    · rw [if_neg he]
      simp only [lookupFile]
      by_cases hm : n' = m
      · rw [if_pos hm, if_pos hm]
      · rw [if_neg hm, if_neg hm, ih]

lemma merged_name_ne (n ts : JSStr) : n ≠ n ++ (".restored-".toList) ++ ts := by
  intro h
  have := congrArg List.length h
  simp [List.length_append] at this

/-- Claim C3: the conflict policy of restoreBackup.  For every extracted
file other than the metadata file: a missing destination is copied
unconditionally; an existing destination is overwritten when
overwriteExisting is set; otherwise with mergeDuplicates the file is
copied under its name suffixed with the restore timestamp and the
existing destination file is unchanged; otherwise the file is skipped,
the destination is unchanged, and the loop continues with the remaining
files (the metadata file and dot entries are excluded up front). -/
theorem claim_C3_conflict_policy (opts : RestoreOptions) (ts : JSStr) (fs : FileMap)
    (n v : JSStr) :
    (lookupFile fs n = none →
      restoreFileStep opts ts fs (n, v) = insertFile fs n v)
    ∧ ((lookupFile fs n).isSome = true → opts.overwriteExisting = true →
      restoreFileStep opts ts fs (n, v) = insertFile fs n v)
    ∧ ((lookupFile fs n).isSome = true → opts.overwriteExisting = false →
      opts.mergeDuplicates = true →
      restoreFileStep opts ts fs (n, v)
          = insertFile fs (n ++ (".restored-".toList) ++ ts) v
        ∧ lookupFile (restoreFileStep opts ts fs (n, v)) n = lookupFile fs n)
    ∧ ((lookupFile fs n).isSome = true → opts.overwriteExisting = false →
      opts.mergeDuplicates = false →
      restoreFileStep opts ts fs (n, v) = fs)
    ∧ (∀ rest, n ≠ ("backup-metadata.json".toList) → n ≠ (".".toList) →
      n ≠ ("..".toList) →
      restoreFilesLoop opts ts ((n, v) :: rest) fs
        = restoreFilesLoop opts ts rest (restoreFileStep opts ts fs (n, v)))
    ∧ (∀ rest, restoreFilesLoop opts ts ((("backup-metadata.json".toList), v) :: rest) fs
        = restoreFilesLoop opts ts rest fs) := by
  refine ⟨?_, ?_, ?_, ?_, ?_, ?_⟩
  · intro hnone
    rw [restoreFileStep]
    rw [if_neg]
    simp [hnone]
  · intro hsome hover
    rw [restoreFileStep]
    rw [if_neg]
    simp [hover]
  · intro hsome hover hmerge
    have hstep : restoreFileStep opts ts fs (n, v)
        = insertFile fs (n ++ (".restored-".toList) ++ ts) v := by
      rw [restoreFileStep, if_pos (by simp [hsome, hover]), if_pos hmerge]
    refine ⟨hstep, ?_⟩
    rw [hstep, lookupFile_insert_ne v (Ne.symm (merged_name_ne n ts))]
  · intro hsome hover hmerge
    rw [restoreFileStep, if_pos (by simp [hsome, hover]), if_neg (by simp [hmerge])]
  · intro rest h1 h2 h3
    rw [restoreFilesLoop, restoreFilesLoop, List.filter_cons]
    rw [if_pos (by
      simp only [Bool.and_eq_true, decide_eq_true_eq]
      exact ⟨⟨h1, h2⟩, h3⟩)]
    rw [List.foldl_cons]
  · intro rest
    rw [restoreFilesLoop, restoreFilesLoop, List.filter_cons]
    rw [if_neg (by simp)]

/-- Witness for claim C3: the skip case at a concrete destination holding
file a — restoring a again with neither option set leaves the destination
unchanged — and the merge case producing the suffixed name. -/
theorem claim_C3_witness :
    restoreFileStep { overwriteExisting := false, mergeDuplicates := false }
        ("123".toList) [(("a".toList), ("x".toList))] (("a".toList), ("y".toList))
      = [(("a".toList), ("x".toList))]
    ∧ restoreFileStep { overwriteExisting := false, mergeDuplicates := true }
        ("123".toList) [(("a".toList), ("x".toList))] (("a".toList), ("y".toList))
      = [(("a".toList), ("x".toList)), (("a.restored-123".toList), ("y".toList))] := by
  constructor
  · exact (claim_C3_conflict_policy { overwriteExisting := false, mergeDuplicates := false }
      ("123".toList) [(("a".toList), ("x".toList))] ("a".toList) ("y".toList)).2.2.2.1
      (by decide) rfl rfl
  · have h := (claim_C3_conflict_policy { overwriteExisting := false, mergeDuplicates := true }
      ("123".toList) [(("a".toList), ("x".toList))] ("a".toList) ("y".toList)).2.2.1
      (by decide) rfl rfl
    rw [h.1]
    decide

/-! ### Permission policy engine (claims C6, C8, C9) -/

/-- The fileType union of PermissionStatus in shared/types.ts. -/
inductive PermFileType
  | directory
  | privateKey
  | publicKey
  | config
  | other
  deriving DecidableEq, Repr

/-- PermissionStatus of shared/types.ts. -/
structure PermissionStatus where
  path : JSStr
  currentPermissions : JSStr
  expectedPermissions : JSStr
  isCorrect : Bool
  fileType : PermFileType
  deriving DecidableEq, Repr

/-- The summary returned by fixAllPermissions. -/
structure FixAllResults where
  fixed : Nat
  failed : Nat
  errors : List JSStr
  deriving DecidableEq, Repr

/-- fixAllPermissions: every record whose isCorrect is false gets a fix
attempt; a failure is caught, counted and recorded with the record's path
in the message, and the loop continues.  fixOk tells whether the delegated
icacls fix for a path succeeds; errMsg is the stringified caught error. -/
def fixAllPermissions (statuses : List PermissionStatus)
    (fixOk : JSStr → Bool) (errMsg : JSStr → JSStr) : FixAllResults :=
  statuses.foldl (fun r s =>
    if s.isCorrect then r
    else if fixOk s.path then { r with fixed := r.fixed + 1 }
    else { r with
            failed := r.failed + 1,
            errors := r.errors ++ [s.path ++ (": ".toList) ++ errMsg s.path] })
    { fixed := 0, failed := 0, errors := [] }

lemma fixAllPermissions_foldl (statuses : List PermissionStatus)
    (fixOk : JSStr → Bool) (errMsg : JSStr → JSStr) (init : FixAllResults) :
    statuses.foldl (fun r s =>
      if s.isCorrect then r
      else if fixOk s.path then { r with fixed := r.fixed + 1 }
      else { r with
              failed := r.failed + 1,
              errors := r.errors ++ [s.path ++ (": ".toList) ++ errMsg s.path] }) init
    = { fixed := init.fixed
          + (statuses.filter (fun s => !s.isCorrect && fixOk s.path)).length,
        failed := init.failed
          + (statuses.filter (fun s => !s.isCorrect && !fixOk s.path)).length,
        errors := init.errors
          ++ (statuses.filter (fun s => !s.isCorrect && !fixOk s.path)).map
            (fun s => s.path ++ (": ".toList) ++ errMsg s.path) } := by
  induction statuses generalizing init with
  | nil => simp
  | cons s ss ih =>
    rw [List.foldl_cons, ih, List.filter_cons, List.filter_cons]
    by_cases hc : s.isCorrect = true
    · rw [if_pos hc]
      rw [if_neg (by simp [hc]), if_neg (by simp [hc])]
    · rw [if_neg hc]
      by_cases ho : fixOk s.path = true
      · rw [if_pos ho, if_pos (by simp [hc, ho]), if_neg (by simp [hc, ho])]
        simp only [List.length_cons]
        congr 1
        omega
      · rw [if_neg ho, if_neg (by simp [hc, ho]), if_pos (by simp [hc, ho])]
        simp only [List.length_cons, List.map_cons]
        congr 1
        · omega
        · simp

lemma filter_bool_and_comm {α : Type} (l : List α) (p q : α → Bool) :
    l.filter (fun a => p a && q a) = l.filter (fun a => q a && p a) := by
  induction l with
  | nil => rfl
  | cons a t ih =>
    rw [List.filter_cons, List.filter_cons, ih]
    by_cases hp : p a = true <;> by_cases hq : q a = true <;> simp [hp, hq]

lemma length_filter_split {α : Type} (l : List α) (p : α → Bool) :
    (l.filter p).length + (l.filter (fun a => !p a)).length = l.length := by
  induction l with
  | nil => rfl
  | cons a t ih =>
    rw [List.filter_cons, List.filter_cons]
    by_cases hp : p a = true
    · rw [if_pos hp, if_neg (by simp [hp])]
      simp only [List.length_cons]
      omega
    · rw [if_neg hp, if_pos (by simp [hp])]
      simp only [List.length_cons]
      omega

/-- Claim C6: fixAllPermissions attempts a fix for every record whose
isCorrect is false and never aborts on an individual failure — the fixed
and failed counts always sum to the number of non-conforming records —
and when exactly one of five non-conforming records fails, the summary is
fixed 4, failed 1, with exactly one error message, which carries the
failing record's path. -/
theorem claim_C6_fixall (statuses : List PermissionStatus)
    (fixOk : JSStr → Bool) (errMsg : JSStr → JSStr) (s0 : PermissionStatus)
    (h5 : (statuses.filter (fun s => !s.isCorrect)).length = 5)
    (h1 : statuses.filter (fun s => !s.isCorrect && !fixOk s.path) = [s0]) :
    (fixAllPermissions statuses fixOk errMsg).fixed = 4
    ∧ (fixAllPermissions statuses fixOk errMsg).failed = 1
    ∧ (fixAllPermissions statuses fixOk errMsg).errors
        = [s0.path ++ (": ".toList) ++ errMsg s0.path]
    ∧ (fixAllPermissions statuses fixOk errMsg).fixed
        + (fixAllPermissions statuses fixOk errMsg).failed
        = (statuses.filter (fun s => !s.isCorrect)).length := by
  have hsplit : (statuses.filter (fun s => !s.isCorrect && fixOk s.path)).length
      + (statuses.filter (fun s => !s.isCorrect && !fixOk s.path)).length
      = (statuses.filter (fun s => !s.isCorrect)).length := by
    have hs := length_filter_split (statuses.filter (fun s => !s.isCorrect))
      (fun s => fixOk s.path)
    rw [List.filter_filter, List.filter_filter] at hs
    rw [filter_bool_and_comm statuses (fun s => !s.isCorrect) (fun s => fixOk s.path),
      filter_bool_and_comm statuses (fun s => !s.isCorrect) (fun s => !fixOk s.path)]
    exact hs
  have hlen1 : (statuses.filter (fun s => !s.isCorrect && !fixOk s.path)).length = 1 := by
    rw [h1]
    rfl
  rw [fixAllPermissions, fixAllPermissions_foldl]
  refine ⟨?_, ?_, ?_, ?_⟩
  · show 0 + _ = 4
    omega
  · show 0 + _ = 1
    omega
  · show [] ++ _ = _
    rw [List.nil_append, h1, List.map_singleton]
  · show 0 + _ + (0 + _) = _
    omega

/-- Witness for claim C6: five non-conforming records of which exactly the
one at path e fails to fix. -/
theorem claim_C6_witness :
    (fixAllPermissions
      [{ path := ("a".toList), currentPermissions := [], expectedPermissions := [],
         isCorrect := false, fileType := PermFileType.privateKey },
       { path := ("b".toList), currentPermissions := [], expectedPermissions := [],
         isCorrect := false, fileType := PermFileType.privateKey },
       { path := ("c".toList), currentPermissions := [], expectedPermissions := [],
         isCorrect := false, fileType := PermFileType.config },
       { path := ("ok".toList), currentPermissions := [], expectedPermissions := [],
         isCorrect := true, fileType := PermFileType.config },
       { path := ("d".toList), currentPermissions := [], expectedPermissions := [],
         isCorrect := false, fileType := PermFileType.directory },
       { path := ("e".toList), currentPermissions := [], expectedPermissions := [],
         isCorrect := false, fileType := PermFileType.publicKey }]
      (fun p => !(p == ("e".toList))) (fun _ => ("boom".toList))).fixed = 4
    ∧ (fixAllPermissions
      [{ path := ("a".toList), currentPermissions := [], expectedPermissions := [],
         isCorrect := false, fileType := PermFileType.privateKey },
       { path := ("b".toList), currentPermissions := [], expectedPermissions := [],
         isCorrect := false, fileType := PermFileType.privateKey },
       { path := ("c".toList), currentPermissions := [], expectedPermissions := [],
         isCorrect := false, fileType := PermFileType.config },
       { path := ("ok".toList), currentPermissions := [], expectedPermissions := [],
         isCorrect := true, fileType := PermFileType.config },
       { path := ("d".toList), currentPermissions := [], expectedPermissions := [],
         isCorrect := false, fileType := PermFileType.directory },
       { path := ("e".toList), currentPermissions := [], expectedPermissions := [],
         isCorrect := false, fileType := PermFileType.publicKey }]
      (fun p => !(p == ("e".toList))) (fun _ => ("boom".toList))).errors
      = [("e: boom".toList)] := by
  have h := claim_C6_fixall
    [{ path := ("a".toList), currentPermissions := [], expectedPermissions := [],
       isCorrect := false, fileType := PermFileType.privateKey },
     { path := ("b".toList), currentPermissions := [], expectedPermissions := [],
       isCorrect := false, fileType := PermFileType.privateKey },
     { path := ("c".toList), currentPermissions := [], expectedPermissions := [],
       isCorrect := false, fileType := PermFileType.config },
     { path := ("ok".toList), currentPermissions := [], expectedPermissions := [],
       isCorrect := true, fileType := PermFileType.config },
     { path := ("d".toList), currentPermissions := [], expectedPermissions := [],
       isCorrect := false, fileType := PermFileType.directory },
     { path := ("e".toList), currentPermissions := [], expectedPermissions := [],
       isCorrect := false, fileType := PermFileType.publicKey }]
    (fun p => !(p == ("e".toList))) (fun _ => ("boom".toList))
    { path := ("e".toList), currentPermissions := [], expectedPermissions := [],
      isCorrect := false, fileType := PermFileType.publicKey }
    (by decide) (by decide)
  exact ⟨h.1, h.2.2.1⟩

/-- The file-classification of the checkAllPermissions loop: the
public-key suffix is tested first, then the configuration file name, and
everything else is assumed to be a private key. -/
def classifyFile (file : JSStr) : PermFileType :=
  if List.isSuffixOf (".pub".toList) file then PermFileType.publicKey
  else if file = ("config".toList) then PermFileType.config
  else PermFileType.privateKey

/-- The per-file classification pass of checkAllPermissions over a
directory listing: dot entries and names containing known_hosts are
skipped, each remaining file is paired with its fileType. -/
def checkAllPermissionsTypes (files : List JSStr) : List (JSStr × PermFileType) :=
  (files.filter (fun f => !(decide (f = (".".toList))) && !(decide (f = ("..".toList)))
      && !(strIncludes f ("known_hosts".toList)))).map
    (fun f => (f, classifyFile f))

/-- Claim C8: in checkAllPermissions, every examined file named config is
classified config, every examined file ending in the public-key suffix is
classified public-key, and every other examined file is classified
private-key. -/
theorem claim_C8_classification (files : List JSStr) (f : JSStr) (ft : PermFileType)
    (h : (f, ft) ∈ checkAllPermissionsTypes files) :
    (f = ("config".toList) → ft = PermFileType.config)
    ∧ (List.isSuffixOf (".pub".toList) f = true → ft = PermFileType.publicKey)
    ∧ (f ≠ ("config".toList) → List.isSuffixOf (".pub".toList) f = false →
        ft = PermFileType.privateKey) := by
  rw [checkAllPermissionsTypes, List.mem_map] at h
  obtain ⟨g, hg, he⟩ := h
  have he1 : g = f := congrArg Prod.fst he
  have he2 : classifyFile g = ft := congrArg Prod.snd he
  subst he1
  refine ⟨?_, ?_, ?_⟩
  · intro hc
    subst hc
    rw [← he2, classifyFile, if_neg (by decide), if_pos rfl]
  · intro hs
    rw [← he2, classifyFile, if_pos hs]
  · intro hc hs
    rw [← he2, classifyFile, if_neg (by rw [hs]; exact Bool.false_ne_true), if_neg hc]

/-- Witness for claim C8 on a concrete listing. -/
theorem claim_C8_witness :
    checkAllPermissionsTypes
        [("config".toList), ("id_rsa.pub".toList), ("id_rsa".toList), ("known_hosts".toList)]
      = [(("config".toList), PermFileType.config),
         (("id_rsa.pub".toList), PermFileType.publicKey),
         (("id_rsa".toList), PermFileType.privateKey)]
    ∧ (("config".toList) = ("config".toList) → PermFileType.config = PermFileType.config) := by
  refine ⟨by decide, ?_⟩
  exact (claim_C8_classification
    [("config".toList), ("id_rsa.pub".toList), ("id_rsa".toList), ("known_hosts".toList)]
    ("config".toList) PermFileType.config (by decide)).1

/-- The expected-permission table of getExpectedPermissions. -/
def getExpectedPermissions : PermFileType → JSStr
  | PermFileType.directory => ("Full Control (Current User Only)".toList)
  | PermFileType.privateKey => ("Read (Current User Only)".toList)
  | PermFileType.publicKey => ("Read (Current User + Everyone)".toList)
  | PermFileType.config => ("Read (Current User Only)".toList)
  | PermFileType.other => ("Full Control (Current User Only)".toList)

/-- The simplified correctness test of checkPermissionsMatch: only the
current-user-only policies are really checked; any other expected policy
accepts every summary. -/
def checkPermissionsMatch (current expected : JSStr) : Bool :=
  if strIncludes expected ("Current User Only".toList) then
    !(strIncludes (strLower current) ("everyone".toList))
      && !(strIncludes (strLower current) ("users".toList))
  else true

/-- parseIcaclsOutput: summarize the second line of the icacls output.
username stands for process.env.USERNAME with its administrators
fallback. -/
def parseIcaclsOutput (username output : JSStr) : JSStr :=
  if (splitOnNl output).length < 2 then ("Unknown".toList)
  else if strIncludes (jsTrim (((splitOnNl output).get? 1).getD [])) username then
    if strIncludes (jsTrim (((splitOnNl output).get? 1).getD [])) ("(F)".toList)
      then ("Full Control".toList)
    else if strIncludes (jsTrim (((splitOnNl output).get? 1).getD [])) ("(M)".toList)
      then ("Modify".toList)
    else if strIncludes (jsTrim (((splitOnNl output).get? 1).getD [])) ("(R)".toList)
      then ("Read".toList)
    else jsTrim (((splitOnNl output).get? 1).getD [])
  else jsTrim (((splitOnNl output).get? 1).getD [])

/-- checkPermissions on the path where the delegated icacls invocation
succeeds, with stdout its raw output. -/
def checkPermissionsSuccess (username stdout filePath : JSStr)
    (fileType : PermFileType) : PermissionStatus :=
  { path := filePath,
    currentPermissions := parseIcaclsOutput username stdout,
    expectedPermissions := getExpectedPermissions fileType,
    isCorrect := checkPermissionsMatch (parseIcaclsOutput username stdout)
      (getExpectedPermissions fileType),
    fileType := fileType }

/-- Claim C9: for a public-key check whose ACL inspection succeeds, the
record is marked correct no matter what the inspection printed — the
expected public-key policy does not contain the Current User Only marker,
so checkPermissionsMatch accepts everything. -/
theorem claim_C9_publickey_accepted (username stdout filePath : JSStr) :
    (checkPermissionsSuccess username stdout filePath PermFileType.publicKey).isCorrect
      = true := by
  show checkPermissionsMatch (parseIcaclsOutput username stdout)
    (getExpectedPermissions PermFileType.publicKey) = true
  rw [checkPermissionsMatch]
  rw [if_neg]
  intro hin
  have hfalse : strIncludes (getExpectedPermissions PermFileType.publicKey)
      ("Current User Only".toList) = false := by decide
  rw [hfalse] at hin
  exact absurd hin (by simp)

/-! ### Key inventory (claims C4, C10) -/

/-- Path separators recognized by the Windows path module. -/
def isPathSep (c : Char) : Bool := c == '/' || c == '\\'

/-- path.basename: the last path component, ignoring trailing separators.
Drive-letter roots are not modelled; no path built here has one as its
basename. -/
def pathBasename (p : JSStr) : JSStr :=
  ((p.reverse.dropWhile isPathSep).takeWhile (fun c => !(isPathSep c))).reverse

/-- path.join for one component, with the Windows separator. -/
def pathJoin (a b : JSStr) : JSStr := a ++ '\\' :: b

/-- The association part of a key record. -/
structure KeyAssoc where
  associatedHosts : List JSStr
  isMapped : Bool
  deriving DecidableEq, Repr

/-- The association loop of getKeyInfo: for every parsed entry with an
identityFile, expand the home shorthand against USERPROFILE, lowercase,
and compare the basename against the lowercased key name and the whole
path against the lowercased private key path; on a match the alias is
recorded and the key counts as mapped. -/
def keyAssociation (userprofile keyName privateKeyPath : JSStr)
    (configs : List SSHConfig) : KeyAssoc :=
  configs.foldl (fun r config =>
    match config.identityFile with
    | none => r
    | some idf =>
      if pathBasename (strLower (expandTilde userprofile idf)) = strLower keyName
          ∨ strLower (expandTilde userprofile idf) = strLower privateKeyPath then
        { associatedHosts := r.associatedHosts ++ [config.host], isMapped := true }
      else r) { associatedHosts := [], isMapped := false }

/-- The fixed private-key filename patterns of renderer-constants.ts. -/
def matchesPrivateKeyPattern (f : JSStr) : Bool :=
  decide (f = ("id_rsa".toList)) || decide (f = ("id_ed25519".toList))
  || decide (f = ("id_ecdsa".toList)) || decide (f = ("id_dsa".toList))
  || List.isSuffixOf ("_rsa".toList) f
  || List.isSuffixOf ("_ed25519".toList) f
  || List.isSuffixOf ("_ecdsa".toList) f

/-- One record of the key listing, restricted to the fields the claims
are about. -/
structure KeyListEntry where
  name : JSStr
  associatedHosts : List JSStr
  isMapped : Bool
  deriving DecidableEq, Repr

/-- listSSHKeys of sshManager.ts, in the revision that resolves
associations from the parsed configuration.  Public keys, known_hosts and
the config file are skipped; a remaining file counts as a private key
when its name matches a pattern or content sniffing (the contentKey
oracle) recognizes it; per-key info retrieval may fail (the infoOk
oracle), in which case the key is skipped with a warning; processed names
are not repeated. -/
def listKeysStep (userprofile sshDir : JSStr) (contentKey infoOk : JSStr → Bool)
    (configs : List SSHConfig) (st : List KeyListEntry × List JSStr)
    (file : JSStr) : List KeyListEntry × List JSStr :=
  if List.isSuffixOf (".pub".toList) file
      || strIncludes file ("known_hosts".toList)
      || decide (file = ("config".toList)) then st
  else if (matchesPrivateKeyPattern file || contentKey (pathJoin sshDir file))
      && !(st.2.contains file) then
    if infoOk file then
      (st.1 ++
        [{ name := file,
           associatedHosts := (keyAssociation userprofile file
              (pathJoin sshDir file) configs).associatedHosts,
           isMapped := (keyAssociation userprofile file
              (pathJoin sshDir file) configs).isMapped }],
        st.2 ++ [file])
    else st
  else st

/-- The whole key listing: the step above folded over the directory,
starting from no keys and no processed names. -/
def listSSHKeys (userprofile sshDir : JSStr) (files : List JSStr)
    (contentKey : JSStr → Bool) (infoOk : JSStr → Bool)
    (configs : List SSHConfig) : List KeyListEntry :=
  (files.foldl (listKeysStep userprofile sshDir contentKey infoOk configs)
    (([], []) : List KeyListEntry × List JSStr)).1

/-- deleteSSHKey over a modelled directory: fsFiles is the set of
existing paths, unlinkOk tells whether a delete of an existing path
succeeds.  Both unlinks are guarded by existence checks, so a key with
neither file present produces no error and no deletion. -/
def deleteSSHKey (fsFiles : List JSStr) (unlinkOk : JSStr → Bool)
    (sshDir keyName : JSStr) : Except JSStr (List JSStr) :=
  if fsFiles.contains (pathJoin sshDir keyName) then
    if unlinkOk (pathJoin sshDir keyName) then
      if (fsFiles.filter (fun f => !(f == pathJoin sshDir keyName))).contains
          (pathJoin sshDir keyName ++ (".pub".toList)) then
        if unlinkOk (pathJoin sshDir keyName ++ (".pub".toList)) then
          Except.ok ((fsFiles.filter (fun f => !(f == pathJoin sshDir keyName))).filter
            (fun f => !(f == pathJoin sshDir keyName ++ (".pub".toList))))
        else Except.error ("Failed to delete SSH key".toList)
      else Except.ok (fsFiles.filter (fun f => !(f == pathJoin sshDir keyName)))
    else Except.error ("Failed to delete SSH key".toList)
  else
    if fsFiles.contains (pathJoin sshDir keyName ++ (".pub".toList)) then
      if unlinkOk (pathJoin sshDir keyName ++ (".pub".toList)) then
        Except.ok (fsFiles.filter
          (fun f => !(f == pathJoin sshDir keyName ++ (".pub".toList))))
      else Except.error ("Failed to delete SSH key".toList)
    else Except.ok fsFiles

/-- Claim C10: deleting a key for which neither the private key file nor
its public counterpart exists completes without error and deletes
nothing — the directory is returned unchanged, not a not-found failure. -/
theorem claim_C10_delete_nonexistent (fsFiles : List JSStr) (unlinkOk : JSStr → Bool)
    (sshDir keyName : JSStr)
    (h1 : pathJoin sshDir keyName ∉ fsFiles)
    (h2 : pathJoin sshDir keyName ++ (".pub".toList) ∉ fsFiles) :
    deleteSSHKey fsFiles unlinkOk sshDir keyName = Except.ok fsFiles := by
  rw [deleteSSHKey]
  rw [if_neg (by simpa using h1), if_neg (by simpa using h2)]

/-- Witness for claim C10: deleting a key absent from a concrete
directory. -/
theorem claim_C10_witness :
    deleteSSHKey [("C:\\Users\\u\\.ssh\\id_rsa".toList)] (fun _ => true)
        ("C:\\Users\\u\\.ssh".toList) ("id_ed25519".toList)
      = Except.ok [("C:\\Users\\u\\.ssh\\id_rsa".toList)] :=
  claim_C10_delete_nonexistent [("C:\\Users\\u\\.ssh\\id_rsa".toList)] (fun _ => true)
    ("C:\\Users\\u\\.ssh".toList) ("id_ed25519".toList) (by decide) (by decide)

/-! ### Evaluation lemmas for the association scenario of claim C4 -/

lemma takeWhile_append_of_all {p : Char → Bool} {u : JSStr} (w : JSStr)
    (hu : ∀ c ∈ u, p c = true) :
    (u ++ w).takeWhile p = u ++ w.takeWhile p := by
  induction u with
  | nil => rfl
  | cons c cs ih =>
    rw [List.cons_append, List.takeWhile_cons, hu c (List.mem_cons_self c cs)]
    simp only [if_true]
    rw [ih (fun x hx => hu x (List.mem_cons_of_mem c hx)), List.cons_append]

lemma reverse_head_append_eq {x v : JSStr} (hvne : v ≠ []) :
    (x ++ v).reverse.head? = v.reverse.head? := by
  rw [List.reverse_append]
  cases hv : v.reverse with
  | nil => exact absurd (by simpa using congrArg List.reverse hv) hvne
  | cons c t => simp

lemma pathBasename_append (x : JSStr) {b : JSStr}
    (hb : ∀ c ∈ b, isPathSep c = false) (hbne : b ≠ []) :
    pathBasename (x ++ '/' :: b) = b := by
  obtain ⟨c, t, rfl⟩ : ∃ c t, b = c :: t := by
    cases b with
    | nil => exact absurd rfl hbne
    | cons c t => exact ⟨c, t, rfl⟩
  rw [pathBasename, List.reverse_append]
  have hrw : ('/' :: c :: t).reverse = (c :: t).reverse ++ ['/'] := by
    rw [List.reverse_cons]
  rw [hrw, List.append_assoc]
  have hrev : ∀ ch ∈ (c :: t).reverse, isPathSep ch = false := by
    intro ch hch
    exact hb ch (List.mem_reverse.mp hch)
  obtain ⟨d, u, hdu⟩ : ∃ d u, (c :: t).reverse = d :: u := by
    cases hr : (c :: t).reverse with
    | nil => exact absurd (by simpa using congrArg List.reverse hr) (List.cons_ne_nil c t)
    | cons d u => exact ⟨d, u, rfl⟩
  rw [hdu, List.cons_append, List.dropWhile_cons]
  have hd : isPathSep d = false := by
    apply hrev
    rw [hdu]
    exact List.mem_cons_self d u
  simp only [hd, Bool.false_eq_true, if_false]
  rw [← List.cons_append, ← hdu,
    takeWhile_append_of_all _ (fun ch hch => by rw [hrev ch hch]; rfl),
    List.singleton_append, List.takeWhile_cons]
  have hsep : isPathSep '/' = true := by decide
  simp only [hsep]
  simp [List.reverse_reverse]

lemma expandTilde_append_of_home {userprofile home v : JSStr}
    (hh : home.head? ≠ some '~') (hv : v.head? ≠ some '~') :
    expandTilde userprofile (home ++ v) = home ++ v := by
  apply expandTilde_of_head
  cases home with
  | nil => simpa using hv
  | cons c t => simpa using hh

lemma pathBasename_strLower_ed25519 (home : JSStr) :
    pathBasename (strLower (home ++ ("/.ssh/id_ed25519".toList)))
      = ("id_ed25519".toList) := by
  rw [strLower, List.map_append]
  rw [show List.map Char.toLower ("/.ssh/id_ed25519".toList)
      = ("/.ssh".toList) ++ '/' :: ("id_ed25519".toList) from by decide]
  rw [← List.append_assoc]
  exact pathBasename_append _ (by decide) (by decide)

lemma pathBasename_strLower_id_rsa (home : JSStr) :
    pathBasename (strLower (home ++ ("/.ssh/id_rsa".toList)))
      = ("id_rsa".toList) := by
  rw [strLower, List.map_append]
  rw [show List.map Char.toLower ("/.ssh/id_rsa".toList)
      = ("/.ssh".toList) ++ '/' :: ("id_rsa".toList) from by decide]
  rw [← List.append_assoc]
  exact pathBasename_append _ (by decide) (by decide)

lemma keyAssociation_ed25519_mapped (userprofile home hostAlias hn privPath : JSStr)
    (hh : home.head? ≠ some '~') :
    keyAssociation userprofile ("id_ed25519".toList) privPath
        [{ host := hostAlias, hostname := hn,
           identityFile := some (home ++ ("/.ssh/id_ed25519".toList)) }]
      = { associatedHosts := [hostAlias], isMapped := true } := by
  have he : expandTilde userprofile (home ++ ("/.ssh/id_ed25519".toList))
      = home ++ ("/.ssh/id_ed25519".toList) :=
    expandTilde_append_of_home hh (by decide)
  simp only [keyAssociation, List.foldl_cons, List.foldl_nil, he]
  rw [if_pos (Or.inl (by rw [pathBasename_strLower_ed25519]; decide))]
  rfl

lemma keyAssociation_id_rsa_unmapped (userprofile home hostAlias hn : JSStr)
    (hh : home.head? ≠ some '~') :
    keyAssociation userprofile ("id_ed25519".toList)
        (pathJoin (pathJoin home (".ssh".toList)) ("id_ed25519".toList))
        [{ host := hostAlias, hostname := hn,
           identityFile := some (home ++ ("/.ssh/id_rsa".toList)) }]
      = { associatedHosts := [], isMapped := false } := by
  have he : expandTilde userprofile (home ++ ("/.ssh/id_rsa".toList))
      = home ++ ("/.ssh/id_rsa".toList) :=
    expandTilde_append_of_home hh (by decide)
  simp only [keyAssociation, List.foldl_cons, List.foldl_nil, he]
  rw [if_neg]
  rintro (hl | hr)
  · rw [pathBasename_strLower_id_rsa] at hl
    exact absurd hl (by decide)
  · have hL : (strLower (home ++ ("/.ssh/id_rsa".toList))).reverse.head? = some 'a' := by
      rw [strLower, List.map_append, reverse_head_append_eq (by decide)]
      decide
    have hR : (strLower (pathJoin (pathJoin home (".ssh".toList))
        ("id_ed25519".toList))).reverse.head? = some '9' := by
      rw [pathJoin, pathJoin, strLower, List.map_append,
        reverse_head_append_eq (by decide)]
      decide
    rw [hr, hR] at hL
    exact absurd hL (by decide)

lemma listKeysStep_config (userprofile sshDir : JSStr)
    (contentKey infoOk : JSStr → Bool) (configs : List SSHConfig)
    (st : List KeyListEntry × List JSStr) :
    listKeysStep userprofile sshDir contentKey infoOk configs st ("config".toList)
      = st := by
  rw [listKeysStep, if_pos (by decide)]

lemma listKeysStep_pub (userprofile sshDir : JSStr)
    (contentKey infoOk : JSStr → Bool) (configs : List SSHConfig)
    (st : List KeyListEntry × List JSStr) :
    listKeysStep userprofile sshDir contentKey infoOk configs st
        ("id_ed25519.pub".toList) = st := by
  rw [listKeysStep, if_pos (by decide)]

lemma listKeysStep_known_hosts (userprofile sshDir : JSStr)
    (contentKey infoOk : JSStr → Bool) (configs : List SSHConfig)
    (st : List KeyListEntry × List JSStr) :
    listKeysStep userprofile sshDir contentKey infoOk configs st
        ("known_hosts".toList) = st := by
  rw [listKeysStep, if_pos (by decide)]

lemma listKeysStep_ed25519 (userprofile sshDir : JSStr)
    (contentKey infoOk : JSStr → Bool) (configs : List SSHConfig)
    (hio : infoOk ("id_ed25519".toList) = true) :
    listKeysStep userprofile sshDir contentKey infoOk configs ([], [])
        ("id_ed25519".toList)
      = ([{ name := ("id_ed25519".toList),
            associatedHosts := (keyAssociation userprofile ("id_ed25519".toList)
              (pathJoin sshDir ("id_ed25519".toList)) configs).associatedHosts,
            isMapped := (keyAssociation userprofile ("id_ed25519".toList)
              (pathJoin sshDir ("id_ed25519".toList)) configs).isMapped }],
          [("id_ed25519".toList)]) := by
  rw [listKeysStep, if_neg (by decide)]
  rw [if_pos (by
    rw [show matchesPrivateKeyPattern ("id_ed25519".toList) = true from by decide]
    simp)]
  rw [if_pos hio]
  rfl

/-- The key listing in the C4 scenario, for any parsed configuration. -/
lemma listSSHKeys_scenario (userprofile sshDir : JSStr)
    (contentKey infoOk : JSStr → Bool) (configs : List SSHConfig)
    (hio : infoOk ("id_ed25519".toList) = true) :
    listSSHKeys userprofile sshDir
        [("config".toList), ("id_ed25519".toList), ("id_ed25519.pub".toList),
         ("known_hosts".toList)]
        contentKey infoOk configs
      = [{ name := ("id_ed25519".toList),
           associatedHosts := (keyAssociation userprofile ("id_ed25519".toList)
             (pathJoin sshDir ("id_ed25519".toList)) configs).associatedHosts,
           isMapped := (keyAssociation userprofile ("id_ed25519".toList)
             (pathJoin sshDir ("id_ed25519".toList)) configs).isMapped }] := by
  rw [listSSHKeys, List.foldl_cons, List.foldl_cons, List.foldl_cons, List.foldl_cons,
    List.foldl_nil, listKeysStep_config, listKeysStep_ed25519 _ _ _ _ _ hio,
    listKeysStep_pub, listKeysStep_known_hosts]

/-- Claim C4: with the SSH directory holding the key id_ed25519 (plus its
public half, the config file and known_hosts) and the parsed configuration
holding one entry with alias A whose IdentityFile expands to the
id_ed25519 path, the key listing returns a record for id_ed25519 with
isMapped true and associatedHosts equal to the one alias; with the same
entry instead pointing at a different key's path (id_rsa) and nothing else
referencing id_ed25519, the record has isMapped false. -/
theorem claim_C4_association (userprofile home hostAlias hn : JSStr)
    (contentKey infoOk : JSStr → Bool)
    (hh : home.head? ≠ some '~')
    (hio : infoOk ("id_ed25519".toList) = true) :
    listSSHKeys userprofile (pathJoin home (".ssh".toList))
        [("config".toList), ("id_ed25519".toList), ("id_ed25519.pub".toList),
         ("known_hosts".toList)]
        contentKey infoOk
        [{ host := hostAlias, hostname := hn,
           identityFile := some (home ++ ("/.ssh/id_ed25519".toList)) }]
      = [{ name := ("id_ed25519".toList), associatedHosts := [hostAlias],
           isMapped := true }]
    ∧ listSSHKeys userprofile (pathJoin home (".ssh".toList))
        [("config".toList), ("id_ed25519".toList), ("id_ed25519.pub".toList),
         ("known_hosts".toList)]
        contentKey infoOk
        [{ host := hostAlias, hostname := hn,
           identityFile := some (home ++ ("/.ssh/id_rsa".toList)) }]
      = [{ name := ("id_ed25519".toList), associatedHosts := [],
           isMapped := false }] := by
  constructor
  · rw [listSSHKeys_scenario _ _ _ _ _ hio,
      keyAssociation_ed25519_mapped userprofile home hostAlias hn _ hh]
  · rw [listSSHKeys_scenario _ _ _ _ _ hio,
      keyAssociation_id_rsa_unmapped userprofile home hostAlias hn hh]

/-- Witness for claim C4 at a concrete home directory and alias. -/
theorem claim_C4_witness :
    listSSHKeys ("C:\\Users\\u".toList) (pathJoin ("C:\\Users\\u".toList) (".ssh".toList))
        [("config".toList), ("id_ed25519".toList), ("id_ed25519.pub".toList),
         ("known_hosts".toList)]
        (fun _ => false) (fun _ => true)
        [{ host := ("github".toList), hostname := ("github.com".toList),
           identityFile := some (("C:\\Users\\u".toList) ++ ("/.ssh/id_ed25519".toList)) }]
      = [{ name := ("id_ed25519".toList), associatedHosts := [("github".toList)],
           isMapped := true }] :=
  (claim_C4_association ("C:\\Users\\u".toList) ("C:\\Users\\u".toList)
    ("github".toList) ("github.com".toList) (fun _ => false) (fun _ => true)
    (by decide) rfl).1

end SSHKeyMgr
